import Mathlib

/-!
Shallow embedding of the recurrence-rule expansion engine of the
jscalendar.ts repository (src/src/recurrence.ts together with the sorted
multi-item merger of src/src/recurrence/date-utils.ts, the variant pinned
by the repository changelog entry "sort expandRecurrence output by
recurrence id/start" and by the test "sorts occurrences by recurrenceId
across items").

Machine integers are modelled as `Int` (JavaScript numbers are exact on
this range), JavaScript `Date.UTC`/`getUTC*` arithmetic is modelled by
explicit civil-calendar/epoch-day conversions, fallible code returns
`Option`/`Except`, and the one unbounded loop (the period loop of
`expandRule`) is modelled with explicit fuel: a result of `none` means the
fuel ran out.  The time-zone-aware comparison branch (which delegates to
the Intl time-zone database through `dateTimeInTimeZone` /
`localDateTimeToUtcDate` in src/src/utils.ts) is outside the model: the
embedding covers the plain lexicographic-comparison path, i.e. objects
without a `timeZone`, as in the repository's own recurrence tests.
-/

namespace JSCal

/-- Day-of-week codes as in the source (`"mo" | "tu" | ... | "su"`). -/
inductive DayOfWeek where
  | mo | tu | we | th | fr | sa | su
deriving DecidableEq, Repr

/-- Index of a weekday in the `order` array of `startOfWeek`. -/
def dowIndex : DayOfWeek → Int
  | .mo => 0 | .tu => 1 | .we => 2 | .th => 3 | .fr => 4 | .sa => 5 | .su => 6

/-- Local date-time tuple, mirroring the `DateTime` type of the source. -/
structure DateTime where
  year : Int
  month : Int
  day : Int
  hour : Int
  minute : Int
  second : Int
deriving DecidableEq, Repr

/-- Days from the Unix epoch for a civil date (proleptic Gregorian), as
computed by JavaScript `Date.UTC(y, m-1, d) / 86400000`. -/
def daysFromCivil (y m d : Int) : Int :=
  let yAdj : Int := y - (if m ≤ 2 then 1 else 0)
  let era : Int := Int.fdiv yAdj 400
  let yoe : Int := yAdj - era * 400
  let mp : Int := Int.emod (m + 9) 12
  let doy : Int := Int.fdiv (153 * mp + 2) 5 + d - 1
  let doe : Int := yoe * 365 + Int.fdiv yoe 4 - Int.fdiv yoe 100 + doy
  era * 146097 + doe - 719468

/-- Civil date from days since the Unix epoch (inverse of `daysFromCivil`),
as computed by JavaScript `getUTCFullYear/getUTCMonth/getUTCDate`. -/
def civilFromDays (z : Int) : Int × Int × Int :=
  let z2 : Int := z + 719468
  let era : Int := Int.fdiv z2 146097
  let doe : Int := z2 - era * 146097
  let yoe : Int :=
    Int.fdiv (doe - Int.fdiv doe 1460 + Int.fdiv doe 36524 - Int.fdiv doe 146096) 365
  let yAdj : Int := yoe + era * 400
  let doy : Int := doe - (365 * yoe + Int.fdiv yoe 4 - Int.fdiv yoe 100)
  let mp : Int := Int.fdiv (5 * doy + 2) 153
  let d : Int := doy - Int.fdiv (153 * mp + 2) 5 + 1
  let m : Int := mp + (if mp < 10 then 3 else -9)
  (yAdj + (if m ≤ 2 then 1 else 0), m, d)

/-- Epoch days for `Date.UTC(year, monthIndex, day)`: JavaScript normalises
an out-of-range 0-based month index by rolling the year, and counts `day`
as an offset from day 1 of that month. -/
def utcDays (year monthIndex day : Int) : Int :=
  daysFromCivil (year + Int.fdiv monthIndex 12) (Int.emod monthIndex 12 + 1) day

/-- Epoch seconds for `Date.UTC(year, month-1, day, hour, minute, second)`. -/
def utcSecs (dt : DateTime) : Int :=
  utcDays dt.year (dt.month - 1) dt.day * 86400
    + dt.hour * 3600 + dt.minute * 60 + dt.second

/-- Mirrors `addDays`: shifts the instant by whole days through epoch
milliseconds, then keeps the original time-of-day fields. -/
def addDays (dt : DateTime) (days : Int) : DateTime :=
  let t : Int := utcSecs dt + days * 86400
  let c := civilFromDays (Int.fdiv t 86400)
  ⟨c.1, c.2.1, c.2.2, dt.hour, dt.minute, dt.second⟩

/-- Mirrors `addSeconds`: epoch-seconds shift with full decomposition. -/
def addSeconds (dt : DateTime) (seconds : Int) : DateTime :=
  let t : Int := utcSecs dt + seconds
  let c := civilFromDays (Int.fdiv t 86400)
  let rem : Int := Int.emod t 86400
  ⟨c.1, c.2.1, c.2.2, Int.fdiv rem 3600, Int.fdiv (Int.emod rem 3600) 60, Int.emod rem 60⟩

/-- Mirrors `addHours` (epoch shift by hours, full decomposition). -/
def addHours (dt : DateTime) (hours : Int) : DateTime :=
  addSeconds dt (hours * 3600)

/-- Mirrors `addMinutes`. -/
def addMinutes (dt : DateTime) (minutes : Int) : DateTime :=
  addSeconds dt (minutes * 60)

/-- Mirrors `daysInMonth`: `new Date(Date.UTC(year, month, 0)).getUTCDate()`. -/
def daysInMonth (year month : Int) : Int :=
  (civilFromDays (utcDays year month 0)).2.2

/-- Mirrors `daysInYear`: `new Date(Date.UTC(year + 1, 0, 0)).getUTCDate()`.
Note that this is the day-of-month of December 31, i.e. always 31; the
embedding reproduces the source computation verbatim. -/
def daysInYear (year : Int) : Int :=
  (civilFromDays (utcDays (year + 1) 0 0)).2.2

/-- Mirrors `addMonths` (JavaScript `Math.floor` division for the year and
truncated `%` for the month). -/
def addMonths (dt : DateTime) (months : Int) : DateTime :=
  let total : Int := dt.year * 12 + (dt.month - 1) + months
  let year : Int := Int.fdiv total 12
  let month : Int := Int.tmod total 12 + 1
  let day : Int := min dt.day (daysInMonth year month)
  ⟨year, month, day, dt.hour, dt.minute, dt.second⟩

/-- Mirrors `dayOfWeek` via `getUTCDay` (0 = Sunday; epoch day 0 was a
Thursday). -/
def dayOfWeek (dt : DateTime) : DayOfWeek :=
  let idx : Int := Int.emod (utcDays dt.year (dt.month - 1) dt.day + 4) 7
  if idx = 0 then .su
  else if idx = 1 then .mo
  else if idx = 2 then .tu
  else if idx = 3 then .we
  else if idx = 4 then .th
  else if idx = 5 then .fr
  else .sa

/-- Mirrors `dayOfYear`. -/
def dayOfYear (dt : DateTime) : Int :=
  utcDays dt.year (dt.month - 1) dt.day - utcDays dt.year 0 1 + 1

/-- Mirrors `daysBetween`. -/
def daysBetween (a b : DateTime) : Int :=
  utcDays b.year (b.month - 1) b.day - utcDays a.year (a.month - 1) a.day

/-- Mirrors `compareDate` (sign only is ever consumed). -/
def compareDate (a b : DateTime) : Int :=
  if a.year ≠ b.year then a.year - b.year
  else if a.month ≠ b.month then a.month - b.month
  else if a.day ≠ b.day then a.day - b.day
  else 0

/-- Mirrors `startOfWeek`. -/
def startOfWeek (dt : DateTime) (firstDay : DayOfWeek) : DateTime :=
  let offset : Int := Int.emod (dowIndex (dayOfWeek dt) - dowIndex firstDay + 7) 7
  addDays dt (-offset)

/-- Mirrors the mutual recursion of `weekNumber` and `totalWeeksInYear`.
The source recursion bottoms out after at most two nested calls (December
31 is never before its own year's week-1 start), so a small depth bound is
sufficient; the bound is made explicit because the callee recurses on an
`Int` year. -/
def weekNumberAux : Nat → DateTime → DayOfWeek → Int
  | 0, _, _ => 0
  | depth + 1, dt, firstDay =>
    let yearStart : DateTime := ⟨dt.year, 1, 1, 0, 0, 0⟩
    let weekStart := startOfWeek yearStart firstDay
    let daysBeforeYear := daysBetween weekStart yearStart
    let daysInFirstWeek : Int := 7 - daysBeforeYear
    let week1Start := if daysInFirstWeek ≥ 4 then weekStart else addDays weekStart 7
    if compareDate dt week1Start < 0 then
      weekNumberAux depth ⟨dt.year - 1, 12, 31, 0, 0, 0⟩ firstDay
    else
      Int.fdiv (daysBetween week1Start dt) 7 + 1

/-- Mirrors `weekNumber`. -/
def weekNumber (dt : DateTime) (firstDay : DayOfWeek) : Int :=
  weekNumberAux 3 dt firstDay

/-- Mirrors `totalWeeksInYear`. -/
def totalWeeksInYear (year : Int) (firstDay : DayOfWeek) : Int :=
  weekNumber ⟨year, 12, 31, 0, 0, 0⟩ firstDay

/-- Mirrors `pad`: `value.toString().padStart(length, "0")`. -/
def pad (value : Int) (length : Nat) : String :=
  let s := toString value
  if s.length ≥ length then s
  else String.mk (List.replicate (length - s.length) '0') ++ s

/-- Mirrors `formatLocalDateTime`. -/
def formatLocalDateTime (dt : DateTime) : String :=
  pad dt.year 4 ++ "-" ++ pad dt.month 2 ++ "-" ++ pad dt.day 2 ++ "T"
    ++ pad dt.hour 2 ++ ":" ++ pad dt.minute 2 ++ ":" ++ pad dt.second 2

/-- Numeric value of a list of decimal digit characters. -/
def digitsVal (cs : List Char) : Int :=
  cs.foldl (fun acc c => acc * 10 + (Int.ofNat c.toNat - 48)) 0

/-- Mirrors `parseLocalDateTime`: the anchored prefix regular expression
`(dddd)-(dd)-(dd)T(dd):(dd):(dd)` (trailing characters are ignored);
`none` models the thrown `Invalid LocalDateTime` error. -/
def parseLocalDateTime (value : String) : Option DateTime :=
  match value.toList with
  | y1 :: y2 :: y3 :: y4 :: '-' :: m1 :: m2 :: '-' :: d1 :: d2 :: 'T'
      :: h1 :: h2 :: ':' :: i1 :: i2 :: ':' :: s1 :: s2 :: _ =>
    if [y1, y2, y3, y4, m1, m2, d1, d2, h1, h2, i1, i2, s1, s2].all Char.isDigit then
      some ⟨digitsVal [y1, y2, y3, y4], digitsVal [m1, m2], digitsVal [d1, d2],
        digitsVal [h1, h2], digitsVal [i1, i2], digitsVal [s1, s2]⟩
    else none
  | _ => none


/-- Lexicographic comparison of char lists by code point, modelling the
JavaScript relational operators and `localeCompare` sign on the ASCII
date-time strings the engine manipulates. -/
def lexCmp : List Char → List Char → Ordering
  | [], [] => .eq
  | [], _ :: _ => .lt
  | _ :: _, [] => .gt
  | a :: as, b :: bs =>
    match compare a.toNat b.toNat with
    | .eq => lexCmp as bs
    | o => o

/-- String comparison used for every plain (zone-free) comparison in the
engine (`<`, `<=`, `>=`, `localeCompare`, `compareLocal` without zone). -/
def strCmp (a b : String) : Ordering := lexCmp a.data b.data

/-- Boolean `a <= b` on strings. -/
def strLeB (a b : String) : Bool :=
  match strCmp a b with
  | .gt => false
  | _ => true

/-- Boolean `a < b` on strings. -/
def strLtB (a b : String) : Bool :=
  match strCmp a b with
  | .lt => true
  | _ => false

theorem lexCmp_eq_iff : ∀ {a b : List Char}, lexCmp a b = .eq ↔ a = b := by
  intro a
  induction a with
  | nil => intro b; cases b <;> simp [lexCmp]
  | cons x xs ih =>
    intro b
    cases b with
    | nil => simp [lexCmp]
    | cons y ys =>
      simp only [lexCmp]
      rcases h : compare x.toNat y.toNat with hc | hc | hc
      · simp only [Nat.compare_eq_lt] at h
        constructor
        · intro hx; exact absurd hx (by simp)
        · intro hx
          obtain ⟨hxy, -⟩ := List.cons.injEq x xs y ys ▸ hx
          subst hxy; omega
      · have hxy : x = y := by
          have hn := Nat.compare_eq_eq.mp h
          rw [← Char.ofNat_toNat x, ← Char.ofNat_toNat y, hn]
        subst hxy
        simpa using ih
      · simp only [Nat.compare_eq_gt] at h
        constructor
        · intro hx; exact absurd hx (by simp)
        · intro hx
          obtain ⟨hxy, -⟩ := List.cons.injEq x xs y ys ▸ hx
          subst hxy; omega

theorem lexCmp_gt_iff_lt : ∀ {a b : List Char}, lexCmp a b = .gt ↔ lexCmp b a = .lt := by
  intro a
  induction a with
  | nil => intro b; cases b <;> simp [lexCmp]
  | cons x xs ih =>
    intro b
    cases b with
    | nil => simp [lexCmp]
    | cons y ys =>
      simp only [lexCmp]
      rcases h : compare x.toNat y.toNat with hc | hc | hc
      · have h2 : compare y.toNat x.toNat = .gt := by
          rw [Nat.compare_eq_gt]; exact Nat.compare_eq_lt.mp h
        rw [h2]; simp
      · have h2 : compare y.toNat x.toNat = .eq := by
          rw [Nat.compare_eq_eq]; exact (Nat.compare_eq_eq.mp h).symm
        rw [h2]; exact ih
      · have h2 : compare y.toNat x.toNat = .lt := by
          rw [Nat.compare_eq_lt]; exact Nat.compare_eq_gt.mp h
        rw [h2]; simp

theorem lexCmp_le_trans : ∀ {a b c : List Char},
    lexCmp a b ≠ .gt → lexCmp b c ≠ .gt → lexCmp a c ≠ .gt := by
  intro a
  induction a with
  | nil =>
    intro b c _ _
    cases c <;> simp [lexCmp]
  | cons x xs ih =>
    intro b c hab hbc
    cases b with
    | nil => simp [lexCmp] at hab
    | cons y ys =>
      cases c with
      | nil => simp [lexCmp] at hbc
      | cons z zs =>
        simp only [lexCmp] at hab hbc ⊢
        rcases hxy : compare x.toNat y.toNat with h1 | h1 | h1 <;>
          rcases hyz : compare y.toNat z.toNat with h2 | h2 | h2 <;>
            rw [hxy] at hab <;> rw [hyz] at hbc <;> simp_all
        · have : x.toNat < z.toNat :=
            Nat.lt_trans (Nat.compare_eq_lt.mp hxy) (Nat.compare_eq_lt.mp hyz)
          rw [(by rw [Nat.compare_eq_lt]; exact this : compare x.toNat z.toNat = .lt)]
          simp
        · have hyzeq := Nat.compare_eq_eq.mp hyz
          rw [(by rw [Nat.compare_eq_lt]; exact hyzeq ▸ Nat.compare_eq_lt.mp hxy :
            compare x.toNat z.toNat = .lt)]
          simp
        · have hxyeq := Nat.compare_eq_eq.mp hxy
          rw [(by rw [Nat.compare_eq_lt]; exact hxyeq ▸ Nat.compare_eq_lt.mp hyz :
            compare x.toNat z.toNat = .lt)]
          simp
        · have hxyeq := Nat.compare_eq_eq.mp hxy
          have hyzeq := Nat.compare_eq_eq.mp hyz
          rw [(by rw [Nat.compare_eq_eq]; omega : compare x.toNat z.toNat = .eq)]
          exact ih hab hbc

theorem strCmp_eq_iff {a b : String} : strCmp a b = .eq ↔ a = b := by
  unfold strCmp
  rw [lexCmp_eq_iff]
  exact String.ext_iff.symm

theorem strCmp_gt_iff_lt {a b : String} : strCmp a b = .gt ↔ strCmp b a = .lt :=
  lexCmp_gt_iff_lt

theorem strCmp_le_trans {a b c : String}
    (h1 : strCmp a b ≠ .gt) (h2 : strCmp b c ≠ .gt) : strCmp a c ≠ .gt :=
  lexCmp_le_trans h1 h2

theorem strCmp_le_total (a b : String) : strCmp a b ≠ .gt ∨ strCmp b a ≠ .gt := by
  rcases h : strCmp a b with h1 | h1 | h1
  · left; simp [h]
  · left; simp [h]
  · right
    rw [strCmp_gt_iff_lt] at h
    simp [h]

/-- Recurrence frequencies. -/
inductive Frequency where
  | yearly | monthly | weekly | daily | hourly | minutely | secondly
deriving DecidableEq, Repr

/-- An `NDay` entry of `byDay`. -/
structure NDay where
  day : DayOfWeek
  nthOfPeriod : Option Int := none
deriving DecidableEq, Repr

/-- The `RecurrenceRule` record (fields the engine reads). -/
structure RecurrenceRule where
  frequency : Frequency
  interval : Option Int := none
  count : Option Int := none
  untilDT : Option String := none
  byMonth : Option (List String) := none
  byMonthDay : Option (List Int) := none
  byYearDay : Option (List Int) := none
  byWeekNo : Option (List Int) := none
  byDay : Option (List NDay) := none
  byHour : Option (List Int) := none
  byMinute : Option (List Int) := none
  bySecond : Option (List Int) := none
  bySetPosition : Option (List Int) := none
  skip : Option String := none
  firstDayOfWeek : Option DayOfWeek := none
  rscale : Option String := none
deriving DecidableEq, Repr

/-- True when an optional array field is absent or empty (the source guards
`!xs || xs.length === 0`). -/
def noneOrEmpty {α : Type} (o : Option (List α)) : Bool :=
  match o with
  | none => true
  | some l => l.isEmpty

/-- Stage 1 of `normalizeRule`: default `bySecond` for non-secondly rules. -/
def normBySecond (start : DateTime) (n : RecurrenceRule) : RecurrenceRule :=
  if n.frequency ≠ .secondly ∧ noneOrEmpty n.bySecond then
    { n with bySecond := some [start.second] }
  else n

/-- Stage 2 of `normalizeRule`: default `byMinute`. -/
def normByMinute (start : DateTime) (n : RecurrenceRule) : RecurrenceRule :=
  if n.frequency ≠ .secondly ∧ n.frequency ≠ .minutely ∧ noneOrEmpty n.byMinute then
    { n with byMinute := some [start.minute] }
  else n

/-- Stage 3 of `normalizeRule`: default `byHour`. -/
def normByHour (start : DateTime) (n : RecurrenceRule) : RecurrenceRule :=
  if n.frequency ≠ .secondly ∧ n.frequency ≠ .minutely ∧ n.frequency ≠ .hourly
      ∧ noneOrEmpty n.byHour then
    { n with byHour := some [start.hour] }
  else n

/-- Stage 4 of `normalizeRule`: a weekly rule with no `byDay` gets the
anchor's weekday. -/
def normWeekly (start : DateTime) (n : RecurrenceRule) : RecurrenceRule :=
  if n.frequency = .weekly ∧ noneOrEmpty n.byDay then
    { n with byDay := some [⟨dayOfWeek start, none⟩] }
  else n

/-- Stage 5 of `normalizeRule`: a monthly rule with neither `byDay` nor
`byMonthDay` gets the anchor's day of month. -/
def normMonthly (start : DateTime) (n : RecurrenceRule) : RecurrenceRule :=
  if n.frequency = .monthly ∧ noneOrEmpty n.byDay ∧ noneOrEmpty n.byMonthDay then
    { n with byMonthDay := some [start.day] }
  else n

/-- Stage 6 of `normalizeRule`: the yearly defaulting block (the three
inner branches consult the `has*` flags computed before any of them runs,
as in the source). -/
def normYearly (start : DateTime) (n : RecurrenceRule) : RecurrenceRule :=
  if n.frequency = .yearly ∧ noneOrEmpty n.byYearDay then
    let hasByMonth := !noneOrEmpty n.byMonth
    let hasByWeekNo := !noneOrEmpty n.byWeekNo
    let hasByMonthDay := !noneOrEmpty n.byMonthDay
    let hasByDay := !noneOrEmpty n.byDay
    let n6 := if !hasByMonth ∧ !hasByWeekNo ∧ (hasByMonthDay ∨ !hasByDay) then
      { n with byMonth := some [toString start.month] } else n
    let n7 := if !hasByMonthDay ∧ !hasByWeekNo ∧ !hasByDay then
      { n6 with byMonthDay := some [start.day] } else n6
    if hasByWeekNo ∧ !hasByMonthDay ∧ !hasByDay then
      { n7 with byDay := some [⟨dayOfWeek start, none⟩] } else n7
  else n

/-- Mirrors `normalizeRule` (src/src/recurrence.ts, also the module of
src/unnamed/part_007): the sequential defaulting passes of the source in
source order; array copies are value-identities here, and each branch
fires exactly when the relevant field is absent or empty. -/
def normalizeRule (rule : RecurrenceRule) (start : DateTime) : RecurrenceRule :=
  normYearly start (normMonthly start (normWeekly start
    (normByHour start (normByMinute start (normBySecond start rule)))))

/-- A candidate calendar date of one period, possibly calendar-invalid. -/
structure DateCandidate where
  year : Int
  month : Int
  day : Int
  valid : Bool
deriving DecidableEq, Repr

/-- Inclusive integer range `[lo, hi]` as a list. -/
def intRange (lo hi : Int) : List Int :=
  (List.range (hi - lo + 1).toNat).map (fun i => lo + (i : Int))

/-- Mirrors `parseInt(value, 10)`: optional leading whitespace and sign,
then a non-empty digit prefix; `none` models `NaN`. -/
def parseIntJS (s : String) : Option Int :=
  let cs := s.data.dropWhile Char.isWhitespace
  let core : List Char → Option Int := fun rest =>
    let ds := rest.takeWhile Char.isDigit
    if ds.isEmpty then none else some (digitsVal ds)
  match cs with
  | '-' :: rest => (core rest).map (fun v => -v)
  | '+' :: rest => core rest
  | rest => core rest

/-- Mirrors `generateDateCandidates`. -/
def generateDateCandidates (periodStart : DateTime) (rule : RecurrenceRule)
    (skip : String) : List DateCandidate :=
  let wantsInvalid : Bool := skip ≠ "omit" ∧ !noneOrEmpty rule.byMonthDay
  match rule.frequency with
  | .yearly =>
    (intRange 1 12).flatMap (fun month =>
      let maxDays := if wantsInvalid then 31 else daysInMonth periodStart.year month
      (intRange 1 maxDays).map (fun day =>
        ⟨periodStart.year, month, day, decide (day ≤ daysInMonth periodStart.year month)⟩))
  | .monthly =>
    let maxDays := if wantsInvalid then 31 else daysInMonth periodStart.year periodStart.month
    (intRange 1 maxDays).map (fun day =>
      ⟨periodStart.year, periodStart.month, day,
        decide (day ≤ daysInMonth periodStart.year periodStart.month)⟩)
  | .weekly =>
    let rec seven : Nat → DateTime → List DateCandidate
      | 0, _ => []
      | n + 1, cursor =>
        ⟨cursor.year, cursor.month, cursor.day, true⟩ :: seven n (addDays cursor 1)
    seven 7 periodStart
  | _ => [⟨periodStart.year, periodStart.month, periodStart.day, true⟩]

/-- Mirrors `matchesByMonthDay`. -/
def matchesByMonthDay (date : DateCandidate) (byMonthDay : List Int) : Bool :=
  let dim := daysInMonth date.year date.month
  byMonthDay.any (fun v =>
    decide ((0 < v ∧ date.day = v) ∨ (v < 0 ∧ date.day = dim + v + 1)))

/-- Mirrors `matchesByYearDay`. -/
def matchesByYearDay (date : DateCandidate) (byYearDay : List Int) : Bool :=
  let diy := daysInYear date.year
  let doy := dayOfYear ⟨date.year, date.month, date.day, 0, 0, 0⟩
  byYearDay.any (fun v =>
    decide ((0 < v ∧ doy = v) ∨ (v < 0 ∧ doy = diy + v + 1)))

/-- Mirrors `matchesByWeekNo`. -/
def matchesByWeekNo (date : DateCandidate) (byWeekNo : List Int)
    (firstDay : DayOfWeek) : Bool :=
  let week := weekNumber ⟨date.year, date.month, date.day, 0, 0, 0⟩ firstDay
  let total := totalWeeksInYear date.year firstDay
  byWeekNo.any (fun v =>
    decide ((0 < v ∧ week = v) ∨ (v < 0 ∧ week = total + v + 1)))

/-- Mirrors `listNthPeriodDates` (the `firstDay` parameter is unused in the
source body as well). -/
def listNthPeriodDates (date : DateCandidate) (frequency : Frequency)
    (periodStart : DateTime) : List DateTime :=
  match frequency with
  | .yearly =>
    (intRange 1 12).flatMap (fun month =>
      (intRange 1 (daysInMonth date.year month)).map (fun day =>
        (⟨date.year, month, day, 0, 0, 0⟩ : DateTime)))
  | .monthly =>
    (intRange 1 (daysInMonth date.year date.month)).map (fun day =>
      (⟨date.year, date.month, day, 0, 0, 0⟩ : DateTime))
  | _ =>
    let rec seven : Nat → DateTime → List DateTime
      | 0, _ => []
      | n + 1, cursor =>
        (⟨cursor.year, cursor.month, cursor.day, 0, 0, 0⟩ : DateTime)
          :: seven n (addDays cursor 1)
    seven 7 periodStart

/-- Mirrors `matchesByDay`. -/
def matchesByDay (date : DateCandidate) (byDay : List NDay) (frequency : Frequency)
    (periodStart : DateTime) : Bool :=
  let weekday := dayOfWeek ⟨date.year, date.month, date.day, 0, 0, 0⟩
  byDay.any (fun entry =>
    match entry.nthOfPeriod with
    | none => decide (entry.day = weekday)
    | some nth =>
      if frequency ≠ .monthly ∧ frequency ≠ .yearly then false
      else
        let matched := (listNthPeriodDates date frequency periodStart).filter
          (fun d => decide (dayOfWeek d = entry.day))
        let index : Int := if 0 < nth then nth - 1 else (matched.length : Int) + nth
        if 0 ≤ index ∧ index < (matched.length : Int) then
          match matched[index.toNat]? with
          | some target =>
            decide (target.year = date.year ∧ target.month = date.month
              ∧ target.day = date.day)
          | none => false
        else false)

/-- Date key used by the de-duplication map of `adjustInvalidMonthDays`. -/
def candidateKey (c : DateCandidate) : String :=
  pad c.year 4 ++ "-" ++ pad c.month 2 ++ "-" ++ pad c.day 2

/-- First-occurrence-wins de-duplication by `candidateKey` (the `Map`
insertion behaviour of the source). -/
def dedupByKey : List DateCandidate → List String → List DateCandidate
  | [], _ => []
  | c :: rest, seenKeys =>
    let key := candidateKey c
    if key ∈ seenKeys then dedupByKey rest seenKeys
    else c :: dedupByKey rest (key :: seenKeys)

/-- Mirrors `adjustInvalidMonthDays`. -/
def adjustInvalidMonthDays (candidates : List DateCandidate) (skip : String) :
    List DateCandidate :=
  let adjusted := candidates.flatMap (fun candidate =>
    if candidate.valid then [candidate]
    else if skip = "forward" then
      let next := addMonths ⟨candidate.year, candidate.month, 1, 0, 0, 0⟩ 1
      [⟨next.year, next.month, 1, true⟩]
    else if skip = "backward" then
      [⟨candidate.year, candidate.month, daysInMonth candidate.year candidate.month, true⟩]
    else [])
  dedupByKey adjusted []

/-- Mirrors `filterDateCandidates` of src/src/recurrence.ts: `byMonthDay`
remediation runs before the `byDay` stage and there is no trailing
invalid-date sweep (candidates are only ever invalid when remediation is
active). -/
def filterDateCandidates (candidates : List DateCandidate) (rule : RecurrenceRule)
    (periodStart : DateTime) (firstDay : DayOfWeek) (skip : String) :
    List DateCandidate :=
  let r1 := if !noneOrEmpty rule.byMonth then
    let months := (rule.byMonth.getD []).filterMap parseIntJS
    candidates.filter (fun d => months.contains d.month)
  else candidates
  let r2 := if !noneOrEmpty rule.byWeekNo then
    r1.filter (fun d => d.valid && matchesByWeekNo d (rule.byWeekNo.getD []) firstDay)
  else r1
  let r3 := if !noneOrEmpty rule.byYearDay then
    r2.filter (fun d => d.valid && matchesByYearDay d (rule.byYearDay.getD []))
  else r2
  let r4 := if !noneOrEmpty rule.byMonthDay then
    let kept := r3.filter (fun d => matchesByMonthDay d (rule.byMonthDay.getD []))
    if skip ≠ "omit" then adjustInvalidMonthDays kept skip else kept
  else r3
  if !noneOrEmpty rule.byDay then
    r4.filter (fun d => matchesByDay d (rule.byDay.getD []) rule.frequency periodStart)
  else r4

/-- The default lexicographic `Array.prototype.sort()` on strings. -/
def sortStrings (l : List String) : List String :=
  List.insertionSort (fun a b => strCmp a b ≠ .gt) l

/-- Mirrors `applyBySetPos`. -/
def applyBySetPos (candidates : List String) (setPos : List Int) : List String :=
  let sorted := sortStrings candidates
  let total := sorted.length
  setPos.flatMap (fun pos =>
    let index : Int := if 0 < pos then pos - 1 else (total : Int) + pos
    if 0 ≤ index ∧ index < (total : Int) then (sorted[index.toNat]?).toList
    else [])

/-- Mirrors `generateDateTimes`. -/
def generateDateTimes (periodStart : DateTime) (rule : RecurrenceRule)
    (firstDay : DayOfWeek) (skip : String) : List String :=
  let dateCandidates := generateDateCandidates periodStart rule skip
  let filteredDates := filterDateCandidates dateCandidates rule periodStart firstDay skip
  let hours := if !noneOrEmpty rule.byHour then rule.byHour.getD [] else [periodStart.hour]
  let minutes := if !noneOrEmpty rule.byMinute then rule.byMinute.getD []
    else [periodStart.minute]
  let seconds := if !noneOrEmpty rule.bySecond then rule.bySecond.getD []
    else [periodStart.second]
  filteredDates.flatMap (fun date =>
    hours.flatMap (fun hour =>
      minutes.flatMap (fun minute =>
        seconds.map (fun second =>
          formatLocalDateTime ⟨date.year, date.month, date.day, hour, minute, second⟩))))

/-- Mirrors `addInterval`. -/
def addInterval (start : DateTime) (frequency : Frequency) (amount : Int)
    (firstDay : DayOfWeek) : DateTime :=
  match frequency with
  | .yearly => ⟨start.year + amount, 1, 1, 0, 0, 0⟩
  | .monthly =>
    let next := addMonths start amount
    ⟨next.year, next.month, 1, 0, 0, 0⟩
  | .weekly => addDays (startOfWeek start firstDay) (amount * 7)
  | .daily => addDays start amount
  | .hourly => addHours start amount
  | .minutely => addMinutes start amount
  | .secondly => addSeconds start amount

/-- Error taxonomy of the expansion engine: the unsupported-feature signal
(`Unsupported rscale: ...`) and the malformed-input signal
(`Invalid LocalDateTime: ...`), mirroring the two `throw new Error` sites. -/
inductive ExpErr where
  | unsupportedRscale (rscale : String)
  | invalidLocalDateTime (value : String)
deriving DecidableEq, Repr

/-- JavaScript truthiness of an optional string (absent or empty = falsy). -/
def truthyStr (o : Option String) : Bool :=
  match o with
  | some s => decide (s ≠ "")
  | none => false

/-- Mirrors `isInRange` (plain path): `value >= from && value <= to`. -/
def isInRange (value fromL toL : String) : Bool :=
  strCmp value fromL ≠ .lt && strCmp value toL ≠ .gt

/-- Per-rule expansion context (the locals of `expandRule` that stay fixed
across the period loop). -/
structure RuleCtx where
  anchor : String
  start : DateTime
  normalized : RecurrenceRule
  interval : Int
  untilV : Option String
  countV : Option Int
  bySetPos : List Int
  skip : String
  firstDay : DayOfWeek
  fromL : String
  toL : String
  includeAnchor : Bool

/-- Mutable state of the period loop of `expandRule`. -/
structure RuleState where
  results : List String
  generated : Int
  seen : Option (List String)

/-- Guard `if (until && compareLocal(dt, until) > 0)` with JS truthiness. -/
def untilExceeded (untilV : Option String) (dt : String) : Bool :=
  match untilV with
  | some u => decide (u ≠ "") && decide (strCmp dt u = .gt)
  | none => false

/-- Guard `if (count && generated >= count)` with JS truthiness
(`count = 0` is falsy and disables the bound). -/
def countReached (countV : Option Int) (generated : Int) : Bool :=
  match countV with
  | some c => decide (c ≠ 0) && decide (generated ≥ c)
  | none => false

/-- Membership in the optional skip-deduplication set. -/
def seenHas (seen : Option (List String)) (dt : String) : Bool :=
  match seen with
  | some l => l.contains dt
  | none => false

/-- Insertion into the optional skip-deduplication set. -/
def seenAdd (seen : Option (List String)) (dt : String) : Option (List String) :=
  seen.map (fun l => if dt ∈ l then l else l ++ [dt])

/-- The candidate loop body of `expandRule` over one period's filtered
instants; `Sum.inl` models the early `return results`. -/
def ruleInner (ctx : RuleCtx) : List String → RuleState → (List String) ⊕ RuleState
  | [], st => .inr st
  | dt :: rest, st =>
    if untilExceeded ctx.untilV dt then .inl st.results
    else if strCmp dt ctx.anchor = .lt then ruleInner ctx rest st
    else if ctx.includeAnchor && dt == ctx.anchor then ruleInner ctx rest st
    else if seenHas st.seen dt then ruleInner ctx rest st
    else
      let seen2 := seenAdd st.seen dt
      let gen2 := st.generated + 1
      let res2 := if isInRange dt ctx.fromL ctx.toL then st.results ++ [dt] else st.results
      if countReached ctx.countV gen2 then .inl res2
      else ruleInner ctx rest ⟨res2, gen2, seen2⟩

/-- The unbounded `for (let step = 0;;)` period loop of `expandRule`,
modelled with fuel (`none` = fuel exhausted before the loop returned). -/
def ruleLoop (ctx : RuleCtx) : Nat → Int → RuleState → Option (List String)
  | 0, _, _ => none
  | fuel + 1, step, st =>
    let periodStart :=
      addInterval ctx.start ctx.normalized.frequency (ctx.interval * step) ctx.firstDay
    let candidateTimes := generateDateTimes periodStart ctx.normalized ctx.firstDay ctx.skip
    let ordered := sortStrings candidateTimes
    let filtered := if ctx.bySetPos.isEmpty then ordered
      else applyBySetPos ordered ctx.bySetPos
    match ruleInner ctx filtered st with
    | .inl res => some res
    | .inr st2 =>
      if strCmp (formatLocalDateTime periodStart) ctx.toL = .gt then some st2.results
      else ruleLoop ctx fuel (step + 1) st2

/-- Mirrors `expandRule` (plain-comparison path, fuelled period loop). -/
def expandRule (anchor : String) (rule : RecurrenceRule) (fromL toL : String)
    (includeAnchor : Bool) (fuel : Nat) : Option (Except ExpErr (List String)) :=
  if truthyStr rule.rscale && rule.rscale ≠ some "gregorian" then
    some (.error (.unsupportedRscale (rule.rscale.getD "")))
  else
    match parseLocalDateTime anchor with
    | none => some (.error (.invalidLocalDateTime anchor))
    | some start =>
      let normalized := normalizeRule rule start
      let interval := normalized.interval.getD 1
      let bySetPos := normalized.bySetPosition.getD []
      let skip := normalized.skip.getD "omit"
      let firstDay := normalized.firstDayOfWeek.getD .mo
      let ctx : RuleCtx := ⟨anchor, start, normalized, interval, normalized.untilDT,
        normalized.count, bySetPos, skip, firstDay, fromL, toL, includeAnchor⟩
      let seen0 : Option (List String) := if skip = "omit" then none else some []
      if includeAnchor then
        let res1 := if isInRange anchor fromL toL then [anchor] else []
        let seen1 := seenAdd seen0 anchor
        if countReached ctx.countV 1 then some (.ok res1)
        else (ruleLoop ctx fuel 0 ⟨res1, 1, seen1⟩).map .ok
      else (ruleLoop ctx fuel 0 ⟨[], 0, seen0⟩).map .ok

/-- Object tag (`@type`). -/
inductive ObjType where
  | event | task | group
deriving DecidableEq, Repr

/-- The non-recurrence fields of a JSCalendar object that the engine reads
or writes; `title` stands for the otherwise opaque payload.  `timeZone` is
outside the model (plain-comparison path, see the module docstring). -/
structure CalCore where
  type : ObjType
  start : Option String := none
  due : Option String := none
  recurrenceId : Option String := none
  recurrenceIdTimeZone : Option String := none
  excluded : Option Bool := none
  title : Option String := none
deriving DecidableEq, Repr

/-- An override patch: the external Patch Applier of the spec, abstracted
as a transformer of the non-recurrence fields (the three recurrence fields
are stripped from every materialized instance immediately after patch
application, so only the effect on `CalCore` is observable), together with
the two key queries `patchHasKey(patch, "start")` / `patchHasKey(patch,
"due")` that the engine performs on the raw patch object. -/
structure PatchObject where
  apply : CalCore → CalCore
  hasStart : Bool := false
  hasDue : Bool := false

/-- A JSCalendar object as the engine sees it. -/
structure CalObj where
  core : CalCore
  recurrenceRules : Option (List RecurrenceRule) := none
  excludedRecurrenceRules : Option (List RecurrenceRule) := none
  recurrenceOverrides : Option (List (String × PatchObject)) := none

/-- Mirrors `isExcludedInstance`. -/
def isExcludedInstance (c : CalCore) : Bool :=
  c.excluded == some true

/-- Mirrors `buildInstance` (always on the zone-free path, so
`recurrenceIdTimeZone` is set from the absent anchor zone, i.e. `null`). -/
def buildInstance (base : CalObj) (recurrenceId : String)
    (patch : Option PatchObject) : Option CalObj :=
  let patched : CalCore :=
    match patch with
    | some p => p.apply base.core
    | none => base.core
  if isExcludedInstance patched then none
  else
    let overridesStart := (patch.map (fun p => p.hasStart)).getD false
    let overridesDue := (patch.map (fun p => p.hasDue)).getD false
    let shifted : CalCore :=
      match patched.type with
      | .event =>
        if overridesStart then patched else { patched with start := some recurrenceId }
      | .task =>
        if truthyStr patched.start then
          (if overridesStart then patched else { patched with start := some recurrenceId })
        else
          (if overridesDue then patched else { patched with due := some recurrenceId })
      | .group => patched
    some {
      core := { shifted with recurrenceId := some recurrenceId, recurrenceIdTimeZone := none },
      recurrenceRules := none,
      excludedRecurrenceRules := none,
      recurrenceOverrides := none }

/-- First-match override lookup (JavaScript object keys are unique). -/
def lookupOverride (overrides : Option (List (String × PatchObject)))
    (key : String) : Option PatchObject :=
  (overrides.getD []).lookup key

/-- Mirrors `Object.keys(overrides)` in insertion order. -/
def overrideKeys (overrides : Option (List (String × PatchObject))) : List String :=
  (overrides.getD []).map (fun kv => kv.1)

/-- Insertion-ordered `Set.add`. -/
def addOcc (l : List String) (x : String) : List String :=
  if x ∈ l then l else l ++ [x]

/-- Add every element of `xs` to the occurrence set. -/
def addOccs (l : List String) (xs : List String) : List String :=
  xs.foldl addOcc l

/-- `Set.delete` for every element of `xs`. -/
def delOccs (l : List String) (xs : List String) : List String :=
  l.filter (fun v => decide (v ∉ xs))

/-- The inclusion-rule loop of `expandObject`: expand each rule with
`includeAnchor = true` and union the instants (first thrown error wins,
fuel exhaustion propagates). -/
def expandRuleSet (anchor fromL toL : String) (fuel : Nat) :
    List RecurrenceRule → List String → Option (Except ExpErr (List String))
  | [], acc => some (.ok acc)
  | r :: rest, acc =>
    match expandRule anchor r fromL toL true fuel with
    | none => none
    | some (.error e) => some (.error e)
    | some (.ok l) => expandRuleSet anchor fromL toL fuel rest (addOccs acc l)

/-- The exclusion-rule loop of `expandObject`: expand each rule with
`includeAnchor = false` and delete the instants. -/
def expandRuleDel (anchor fromL toL : String) (fuel : Nat) :
    List RecurrenceRule → List String → Option (Except ExpErr (List String))
  | [], acc => some (.ok acc)
  | r :: rest, acc =>
    match expandRule anchor r fromL toL false fuel with
    | none => none
    | some (.error e) => some (.error e)
    | some (.ok l) => expandRuleDel anchor fromL toL fuel rest (delOccs acc l)

/-- Mirrors `expandObject` (plain-comparison path): without rules the base
itself plus in-range override instances; with rules the include-rule union
minus the exclude-rule union, plus in-range override keys, sorted and
materialized. -/
def expandObject (base : CalObj) (fromL toL anchor : String)
    (rules excludedRules : Option (List RecurrenceRule))
    (overrides : Option (List (String × PatchObject))) (fuel : Nat) :
    Option (Except ExpErr (List CalObj)) :=
  let oKeys := overrideKeys overrides
  if noneOrEmpty rules then
    let head := if isInRange anchor fromL toL then [base] else []
    let extra := oKeys.filterMap (fun key =>
      if isInRange key fromL toL then buildInstance base key (lookupOverride overrides key)
      else none)
    some (.ok (head ++ extra))
  else
    match expandRuleSet anchor fromL toL fuel (rules.getD []) [] with
    | none => none
    | some (.error e) => some (.error e)
    | some (.ok occ1) =>
      match expandRuleDel anchor fromL toL fuel (excludedRules.getD []) occ1 with
      | none => none
      | some (.error e) => some (.error e)
      | some (.ok occ2) =>
        let occ3 := oKeys.foldl (fun acc key =>
          if isInRange key fromL toL then addOcc acc key else acc) occ2
        let sorted := sortStrings occ3
        some (.ok (sorted.filterMap (fun dt =>
          buildInstance base dt (lookupOverride overrides dt))))

/-- Mirrors `expandEvent` (an Event without `start` is untypable in the
TypeScript source; it is given the empty expansion). -/
def expandEvent (e : CalObj) (fromL toL : String) (fuel : Nat) :
    Option (Except ExpErr (List CalObj)) :=
  match e.core.start with
  | some anchor =>
    expandObject e fromL toL anchor e.recurrenceRules e.excludedRecurrenceRules
      e.recurrenceOverrides fuel
  | none => some (.ok [])

/-- Mirrors `expandTask`: anchor is `task.start ?? task.due`; a task with
neither yields the empty generator. -/
def expandTask (t : CalObj) (fromL toL : String) (fuel : Nat) :
    Option (Except ExpErr (List CalObj)) :=
  let anchor : Option String :=
    match t.core.start with
    | some s => some s
    | none => t.core.due
  match anchor with
  | none => some (.ok [])
  | some a =>
    expandObject t fromL toL a t.recurrenceRules t.excludedRecurrenceRules
      t.recurrenceOverrides fuel

/-- Mirrors `occurrenceKey`: the truthy `recurrenceId` if any, else the
object's own `start` (or `start ?? due` for a Task). -/
def occurrenceKey (v : CalObj) : Option String :=
  if truthyStr v.core.recurrenceId then v.core.recurrenceId
  else
    match v.core.type with
    | .event => v.core.start
    | .task =>
      match v.core.start with
      | some s => some s
      | none => v.core.due
    | .group => none

/-- One entry of the merger's `occurrences` array. -/
structure OccEnt where
  value : CalObj
  key : Option String
  index : Int

/-- The truthy view of an entry key (the comparator tests `a.key &&
b.key`). -/
def entKeyT (e : OccEnt) : Option String :=
  if truthyStr e.key then e.key else none

/-- The merger's sort comparator: keys compare by `localeCompare`, keyed
entries precede keyless ones, keyless ties break by input index. -/
def occCmp (a b : OccEnt) : Int :=
  match entKeyT a, entKeyT b with
  | some ka, some kb =>
    match strCmp ka kb with
    | .lt => -1
    | .eq => 0
    | .gt => 1
  | some _, none => -1
  | none, some _ => 1
  | none, none => a.index - b.index

/-- Non-strict comparator order, the relation a stable sort realises. -/
def occLE (a b : OccEnt) : Prop := occCmp a b ≤ 0

instance : DecidableRel occLE := fun a b =>
  inferInstanceAs (Decidable (occCmp a b ≤ 0))

/-- Entries for one object's occurrence stream, with running indices. -/
def entsOf : List CalObj → Int → List OccEnt
  | [], _ => []
  | o :: rest, idx => ⟨o, occurrenceKey o, idx⟩ :: entsOf rest (idx + 1)

/-- The collection loop of the sorted `expandRecurrence`: expand each item
(Events and Tasks through `expandObject`, anything else passes through
verbatim) and record `(value, key, index)` entries in input order. -/
def collectEnts (fromL toL : String) (fuel : Nat) :
    List CalObj → Int → List OccEnt → Option (Except ExpErr (List OccEnt))
  | [], _, acc => some (.ok acc)
  | item :: rest, idx, acc =>
    let expanded : Option (Except ExpErr (List CalObj)) :=
      match item.core.type with
      | .event => expandEvent item fromL toL fuel
      | .task => expandTask item fromL toL fuel
      | .group => some (.ok [item])
    match expanded with
    | none => none
    | some (.error e) => some (.error e)
    | some (.ok occs) =>
      collectEnts fromL toL fuel rest (idx + occs.length) (acc ++ entsOf occs idx)

/-- Mirrors the sorted `expandRecurrence` of
src/src/recurrence/date-utils.ts lines 340-376: collect every object's
occurrences, stable-sort by the comparator, yield the values. -/
def expandRecurrence (items : List CalObj) (fromL toL : String) (fuel : Nat) :
    Option (Except ExpErr (List CalObj)) :=
  match collectEnts fromL toL fuel items 0 [] with
  | none => none
  | some (.error e) => some (.error e)
  | some (.ok ents) =>
    some (.ok ((List.insertionSort occLE ents).map (fun e => e.value)))

/-- A result page of `expandRecurrencePaged`. -/
structure RecurrencePage where
  items : List CalObj
  nextCursor : Option String

/-- The accumulation loop of `expandRecurrencePaged` over the merged
stream: skip entries at or before the cursor (keyless entries are skipped
whenever a truthy cursor is set), accumulate until `limit` is reached
(checked after each push), remember the last truthy key. -/
def pagedLoop (cursor : Option String) (limit : Int) :
    List CalObj → List CalObj → Option String → RecurrencePage
  | [], acc, nc => ⟨acc, nc⟩
  | occ :: rest, acc, nc =>
    let key := occurrenceKey occ
    if truthyStr cursor && truthyStr key
        && strCmp (key.getD "") (cursor.getD "") ≠ .gt then
      pagedLoop cursor limit rest acc nc
    else if truthyStr cursor && !truthyStr key then
      pagedLoop cursor limit rest acc nc
    else
      let acc2 := acc ++ [occ]
      let nc2 := if truthyStr key then key else nc
      if (acc2.length : Int) ≥ limit then ⟨acc2, nc2⟩
      else pagedLoop cursor limit rest acc2 nc2

/-- Mirrors `expandRecurrencePaged`. -/
def expandRecurrencePaged (items : List CalObj) (fromL toL : String)
    (limit : Int) (cursor : Option String) (fuel : Nat) :
    Option (Except ExpErr RecurrencePage) :=
  match expandRecurrence items fromL toL fuel with
  | none => none
  | some (.error e) => some (.error e)
  | some (.ok occs) => some (.ok (pagedLoop cursor limit occs [] none))

theorem normBySecond_frequency (s : DateTime) (n : RecurrenceRule) :
    (normBySecond s n).frequency = n.frequency := by
  unfold normBySecond; split <;> rfl

theorem normByMinute_frequency (s : DateTime) (n : RecurrenceRule) :
    (normByMinute s n).frequency = n.frequency := by
  unfold normByMinute; split <;> rfl

theorem normByHour_frequency (s : DateTime) (n : RecurrenceRule) :
    (normByHour s n).frequency = n.frequency := by
  unfold normByHour; split <;> rfl

theorem normWeekly_frequency (s : DateTime) (n : RecurrenceRule) :
    (normWeekly s n).frequency = n.frequency := by
  unfold normWeekly; split <;> rfl

theorem normMonthly_frequency (s : DateTime) (n : RecurrenceRule) :
    (normMonthly s n).frequency = n.frequency := by
  unfold normMonthly; split <;> rfl

theorem normYearly_frequency (s : DateTime) (n : RecurrenceRule) :
    (normYearly s n).frequency = n.frequency := by
  unfold normYearly
  split
  · dsimp only
    split <;> split <;> split <;> rfl
  · rfl

theorem normWeekly_id (s : DateTime) (n : RecurrenceRule) (h : n.frequency ≠ .weekly) :
    normWeekly s n = n := by
  unfold normWeekly
  rw [if_neg]
  intro hc
  exact h hc.1

theorem normMonthly_id (s : DateTime) (n : RecurrenceRule) (h : n.frequency ≠ .monthly) :
    normMonthly s n = n := by
  unfold normMonthly
  rw [if_neg]
  intro hc
  exact h hc.1

theorem normYearly_id (s : DateTime) (n : RecurrenceRule) (h : n.frequency ≠ .yearly) :
    normYearly s n = n := by
  unfold normYearly
  rw [if_neg]
  intro hc
  exact h hc.1

theorem normBySecond_byMinute (s : DateTime) (n : RecurrenceRule) :
    (normBySecond s n).byMinute = n.byMinute := by
  unfold normBySecond; split <;> rfl

theorem normByMinute_bySecond (s : DateTime) (n : RecurrenceRule) :
    (normByMinute s n).bySecond = n.bySecond := by
  unfold normByMinute; split <;> rfl

theorem normByHour_bySecond (s : DateTime) (n : RecurrenceRule) :
    (normByHour s n).bySecond = n.bySecond := by
  unfold normByHour; split <;> rfl

theorem normWeekly_bySecond (s : DateTime) (n : RecurrenceRule) :
    (normWeekly s n).bySecond = n.bySecond := by
  unfold normWeekly; split <;> rfl

theorem normMonthly_bySecond (s : DateTime) (n : RecurrenceRule) :
    (normMonthly s n).bySecond = n.bySecond := by
  unfold normMonthly; split <;> rfl

theorem normYearly_bySecond (s : DateTime) (n : RecurrenceRule) :
    (normYearly s n).bySecond = n.bySecond := by
  unfold normYearly
  split
  · dsimp only
    split <;> split <;> split <;> rfl
  · rfl

theorem normByHour_byMinute (s : DateTime) (n : RecurrenceRule) :
    (normByHour s n).byMinute = n.byMinute := by
  unfold normByHour; split <;> rfl

theorem normWeekly_byMinute (s : DateTime) (n : RecurrenceRule) :
    (normWeekly s n).byMinute = n.byMinute := by
  unfold normWeekly; split <;> rfl

theorem normMonthly_byMinute (s : DateTime) (n : RecurrenceRule) :
    (normMonthly s n).byMinute = n.byMinute := by
  unfold normMonthly; split <;> rfl

theorem normYearly_byMinute (s : DateTime) (n : RecurrenceRule) :
    (normYearly s n).byMinute = n.byMinute := by
  unfold normYearly
  split
  · dsimp only
    split <;> split <;> split <;> rfl
  · rfl

theorem normWeekly_byHour (s : DateTime) (n : RecurrenceRule) :
    (normWeekly s n).byHour = n.byHour := by
  unfold normWeekly; split <;> rfl

theorem normMonthly_byHour (s : DateTime) (n : RecurrenceRule) :
    (normMonthly s n).byHour = n.byHour := by
  unfold normMonthly; split <;> rfl

theorem normYearly_byHour (s : DateTime) (n : RecurrenceRule) :
    (normYearly s n).byHour = n.byHour := by
  unfold normYearly
  split
  · dsimp only
    split <;> split <;> split <;> rfl
  · rfl

theorem normMonthly_byDay (s : DateTime) (n : RecurrenceRule) :
    (normMonthly s n).byDay = n.byDay := by
  unfold normMonthly; split <;> rfl

theorem post_bySecond (s : DateTime) (n : RecurrenceRule) (h : n.frequency ≠ .secondly) :
    noneOrEmpty (normBySecond s n).bySecond = false := by
  unfold normBySecond
  split
  · simp [noneOrEmpty]
  · rename_i hc
    push_neg at hc
    simpa using hc h

theorem post_byMinute (s : DateTime) (n : RecurrenceRule)
    (h1 : n.frequency ≠ .secondly) (h2 : n.frequency ≠ .minutely) :
    noneOrEmpty (normByMinute s n).byMinute = false := by
  unfold normByMinute
  split
  · simp [noneOrEmpty]
  · rename_i hc
    push_neg at hc
    simpa using hc h1 h2

theorem post_byHour (s : DateTime) (n : RecurrenceRule)
    (h1 : n.frequency ≠ .secondly) (h2 : n.frequency ≠ .minutely)
    (h3 : n.frequency ≠ .hourly) :
    noneOrEmpty (normByHour s n).byHour = false := by
  unfold normByHour
  split
  · simp [noneOrEmpty]
  · rename_i hc
    push_neg at hc
    simpa using hc h1 h2 h3

theorem post_weekly (s : DateTime) (n : RecurrenceRule) (h : n.frequency = .weekly) :
    noneOrEmpty (normWeekly s n).byDay = false := by
  unfold normWeekly
  split
  · simp [noneOrEmpty]
  · rename_i hc
    push_neg at hc
    simpa using hc h

theorem post_monthly (s : DateTime) (n : RecurrenceRule) (h : n.frequency = .monthly) :
    ¬(noneOrEmpty (normMonthly s n).byDay = true
      ∧ noneOrEmpty (normMonthly s n).byMonthDay = true) := by
  unfold normMonthly
  split
  · simp [noneOrEmpty]
  · rename_i hc
    push_neg at hc
    intro hb
    have := hc h (by simpa using hb.1)
    simp_all

theorem noneOrEmpty_some_cons {α : Type} (a : α) (l : List α) :
    noneOrEmpty (some (a :: l)) = false := rfl

set_option maxHeartbeats 1000000 in
theorem normYearly_idem (s : DateTime) (n : RecurrenceRule) (h : n.frequency = .yearly) :
    normYearly s (normYearly s n) = normYearly s n := by
  by_cases hy : noneOrEmpty n.byYearDay = true
  · cases hm : noneOrEmpty n.byMonth <;>
      cases hw : noneOrEmpty n.byWeekNo <;>
        cases hd : noneOrEmpty n.byMonthDay <;>
          cases hby : noneOrEmpty n.byDay <;>
            simp [normYearly, h, hy, hm, hw, hd, hby, noneOrEmpty_some_cons]
  · have hid : normYearly s n = n := by
      unfold normYearly
      rw [if_neg]
      intro hc
      exact hy hc.2
    rw [hid, hid]

theorem normalizeRule_frequency (r : RecurrenceRule) (s : DateTime) :
    (normalizeRule r s).frequency = r.frequency := by
  unfold normalizeRule
  rw [normYearly_frequency, normMonthly_frequency, normWeekly_frequency,
    normByHour_frequency, normByMinute_frequency, normBySecond_frequency]

theorem normalizeRule_idem (r : RecurrenceRule) (s : DateTime) :
    normalizeRule (normalizeRule r s) s = normalizeRule r s := by
  set N := normalizeRule r s with hN
  have hfreq : N.frequency = r.frequency := normalizeRule_frequency r s
  have hSe : normBySecond s N = N := by
    unfold normBySecond
    rw [if_neg]
    rintro ⟨h1, h2⟩
    by_cases hsec : r.frequency = Frequency.secondly
    · exact h1 (hfreq.trans hsec)
    · have hfalse : noneOrEmpty N.bySecond = false := by
        rw [hN]
        unfold normalizeRule
        rw [normYearly_bySecond, normMonthly_bySecond, normWeekly_bySecond,
          normByHour_bySecond, normByMinute_bySecond]
        exact post_bySecond s r hsec
      simp [h2] at hfalse
  have hMi : normByMinute s N = N := by
    unfold normByMinute
    rw [if_neg]
    rintro ⟨h1, h2, h3⟩
    by_cases hsec : r.frequency = Frequency.secondly
    · exact h1 (hfreq.trans hsec)
    by_cases hmin : r.frequency = Frequency.minutely
    · exact h2 (hfreq.trans hmin)
    have hfalse : noneOrEmpty N.byMinute = false := by
      rw [hN]
      unfold normalizeRule
      rw [normYearly_byMinute, normMonthly_byMinute, normWeekly_byMinute,
        normByHour_byMinute]
      exact post_byMinute s (normBySecond s r)
        (by rw [normBySecond_frequency]; exact hsec)
        (by rw [normBySecond_frequency]; exact hmin)
    simp [h3] at hfalse
  have hH : normByHour s N = N := by
    unfold normByHour
    rw [if_neg]
    rintro ⟨h1, h2, h3, h4⟩
    by_cases hsec : r.frequency = Frequency.secondly
    · exact h1 (hfreq.trans hsec)
    by_cases hmin : r.frequency = Frequency.minutely
    · exact h2 (hfreq.trans hmin)
    by_cases hhr : r.frequency = Frequency.hourly
    · exact h3 (hfreq.trans hhr)
    have hfalse : noneOrEmpty N.byHour = false := by
      rw [hN]
      unfold normalizeRule
      rw [normYearly_byHour, normMonthly_byHour, normWeekly_byHour]
      exact post_byHour s (normByMinute s (normBySecond s r))
        (by rw [normByMinute_frequency, normBySecond_frequency]; exact hsec)
        (by rw [normByMinute_frequency, normBySecond_frequency]; exact hmin)
        (by rw [normByMinute_frequency, normBySecond_frequency]; exact hhr)
    simp [h4] at hfalse
  have hW : normWeekly s N = N := by
    by_cases hwf : r.frequency = Frequency.weekly
    · unfold normWeekly
      rw [if_neg]
      rintro ⟨-, h2⟩
      have hfalse : noneOrEmpty N.byDay = false := by
        rw [hN]
        unfold normalizeRule
        rw [normYearly_id s _ (by
          rw [normMonthly_frequency, normWeekly_frequency, normByHour_frequency,
            normByMinute_frequency, normBySecond_frequency, hwf]
          simp)]
        rw [normMonthly_id s _ (by
          rw [normWeekly_frequency, normByHour_frequency,
            normByMinute_frequency, normBySecond_frequency, hwf]
          simp)]
        exact post_weekly s _ (by
          rw [normByHour_frequency, normByMinute_frequency, normBySecond_frequency]
          exact hwf)
      simp [h2] at hfalse
    · exact normWeekly_id s N (by rw [hfreq]; exact hwf)
  have hM : normMonthly s N = N := by
    by_cases hmf : r.frequency = Frequency.monthly
    · unfold normMonthly
      rw [if_neg]
      rintro ⟨-, h2, h3⟩
      have hne : ¬(noneOrEmpty N.byDay = true ∧ noneOrEmpty N.byMonthDay = true) := by
        rw [hN]
        unfold normalizeRule
        rw [normYearly_id s _ (by
          rw [normMonthly_frequency, normWeekly_frequency, normByHour_frequency,
            normByMinute_frequency, normBySecond_frequency, hmf]
          simp)]
        rw [normWeekly_id s _ (by
          rw [normByHour_frequency, normByMinute_frequency, normBySecond_frequency, hmf]
          simp)]
        exact post_monthly s _ (by
          rw [normByHour_frequency, normByMinute_frequency, normBySecond_frequency]
          exact hmf)
      exact hne ⟨h2, h3⟩
    · exact normMonthly_id s N (by rw [hfreq]; exact hmf)
  have hY : normYearly s N = N := by
    by_cases hyf : r.frequency = Frequency.yearly
    · have hNy : N = normYearly s (normByHour s (normByMinute s (normBySecond s r))) := by
        rw [hN]
        unfold normalizeRule
        rw [normMonthly_id s _ (by
          rw [normWeekly_frequency, normByHour_frequency,
            normByMinute_frequency, normBySecond_frequency, hyf]
          simp)]
        rw [normWeekly_id s _ (by
          rw [normByHour_frequency, normByMinute_frequency, normBySecond_frequency, hyf]
          simp)]
      rw [hNy]
      exact normYearly_idem s _ (by
        rw [normByHour_frequency, normByMinute_frequency, normBySecond_frequency]
        exact hyf)
    · exact normYearly_id s N (by rw [hfreq]; exact hyf)
  show normalizeRule N s = N
  unfold normalizeRule
  rw [hSe, hMi, hH, hW, hM, hY]

theorem strCmp_le_empty {a : String} (h : strCmp a "" ≠ .gt) : a = "" := by
  apply String.ext
  show a.data = ("" : String).data
  have hd : ("" : String).data = [] := rfl
  rw [hd]
  unfold strCmp at h
  rw [hd] at h
  cases hcase : a.data with
  | nil => rfl
  | cons c cs =>
    rw [hcase] at h
    exact absurd rfl h

theorem parse_ne_empty {v : String} {d : DateTime}
    (h : parseLocalDateTime v = some d) : v ≠ "" := by
  intro hv
  subst hv
  simp [parseLocalDateTime] at h

/-- Every result the candidate loop can produce keeps the until bound,
provided the bound is a truthy `until` value and the incoming results keep
it. -/
theorem ruleInner_until {ctx : RuleCtx} {U : String}
    (hU : ctx.untilV = some U) (hUne : U ≠ "") :
    ∀ (cands : List String) (st : RuleState),
      (∀ k ∈ st.results, strCmp k U ≠ .gt) →
      (∀ res, ruleInner ctx cands st = .inl res → ∀ k ∈ res, strCmp k U ≠ .gt) ∧
      (∀ st2, ruleInner ctx cands st = .inr st2 → ∀ k ∈ st2.results, strCmp k U ≠ .gt) := by
  intro cands
  induction cands with
  | nil =>
    intro st hst
    constructor
    · intro res hres
      simp [ruleInner] at hres
    · intro st2 hst2
      simp [ruleInner] at hst2
      rw [← hst2]
      exact hst
  | cons dt rest ih =>
    intro st hst
    by_cases hx : untilExceeded ctx.untilV dt = true
    · constructor
      · intro res hres
        simp [ruleInner, hx] at hres
        rw [← hres]
        exact hst
      · intro st2 hst2
        simp [ruleInner, hx] at hst2
    · have hdtle : strCmp dt U ≠ .gt := by
        rw [hU] at hx
        simp [untilExceeded, hUne] at hx
        exact hx
      by_cases h1 : strCmp dt ctx.anchor = .lt
      · have hstep : ruleInner ctx (dt :: rest) st = ruleInner ctx rest st := by
          simp [ruleInner, hx, h1]
        rw [hstep]
        exact ih st hst
      · by_cases h2 : (ctx.includeAnchor && dt == ctx.anchor) = true
        · have hstep : ruleInner ctx (dt :: rest) st = ruleInner ctx rest st := by
            simp only [ruleInner]
            rw [if_neg (by simp [hx]), if_neg h1, if_pos h2]
          rw [hstep]
          exact ih st hst
        · by_cases h3 : seenHas st.seen dt = true
          · have hstep : ruleInner ctx (dt :: rest) st = ruleInner ctx rest st := by
              simp only [ruleInner]
              rw [if_neg (by simp [hx]), if_neg h1,
                if_neg h2, if_pos h3]
            rw [hstep]
            exact ih st hst
          · set res2 := if isInRange dt ctx.fromL ctx.toL then st.results ++ [dt]
              else st.results with hres2
            have hres2P : ∀ k ∈ res2, strCmp k U ≠ .gt := by
              rw [hres2]
              split
              · intro k hk
                rcases List.mem_append.mp hk with hk1 | hk2
                · exact hst k hk1
                · rw [List.mem_singleton.mp hk2]
                  exact hdtle
              · exact hst
            by_cases h4 : countReached ctx.countV (st.generated + 1) = true
            · have hstep : ruleInner ctx (dt :: rest) st = .inl res2 := by
                simp only [ruleInner]
                rw [if_neg (by simp [hx]), if_neg h1,
                  if_neg h2, if_neg (by simp [h3])]
                simp only [← hres2]
                rw [if_pos h4]
              rw [hstep]
              refine ⟨fun res hres => ?_, fun st2 hst2 => ?_⟩
              · cases hres
                exact hres2P
              · cases hst2
            · have hstep : ruleInner ctx (dt :: rest) st
                  = ruleInner ctx rest ⟨res2, st.generated + 1, seenAdd st.seen dt⟩ := by
                simp only [ruleInner]
                rw [if_neg (by simp [hx]), if_neg h1,
                  if_neg h2, if_neg (by simp [h3])]
                simp only [← hres2]
                rw [if_neg h4]
              rw [hstep]
              exact ih _ hres2P

/-- The period loop keeps the until bound on every returned list. -/
theorem ruleLoop_until {ctx : RuleCtx} {U : String}
    (hU : ctx.untilV = some U) (hUne : U ≠ "") :
    ∀ (fuel : Nat) (step : Int) (st : RuleState),
      (∀ k ∈ st.results, strCmp k U ≠ .gt) →
      ∀ l, ruleLoop ctx fuel step st = some l → ∀ k ∈ l, strCmp k U ≠ .gt := by
  intro fuel
  induction fuel with
  | zero =>
    intro step st _ l hl
    simp [ruleLoop] at hl
  | succ fuel ih =>
    intro step st hst l hl
    rw [ruleLoop] at hl
    set periodStart :=
      addInterval ctx.start ctx.normalized.frequency (ctx.interval * step) ctx.firstDay
    set filtered := if ctx.bySetPos.isEmpty then
        sortStrings (generateDateTimes periodStart ctx.normalized ctx.firstDay ctx.skip)
      else applyBySetPos
        (sortStrings (generateDateTimes periodStart ctx.normalized ctx.firstDay ctx.skip))
        ctx.bySetPos with hfiltered
    have hinner := ruleInner_until hU hUne filtered st hst
    cases hcase : ruleInner ctx filtered st with
    | inl res =>
      rw [hcase] at hl
      dsimp only at hl
      injection hl with hl2
      subst hl2
      exact hinner.1 res hcase
    | inr st2 =>
      rw [hcase] at hl
      dsimp only at hl
      have hst2 := hinner.2 st2 hcase
      by_cases hdone : strCmp (formatLocalDateTime periodStart) ctx.toL = .gt
      · rw [if_pos hdone] at hl
        injection hl with hl2
        subst hl2
        exact hst2
      · rw [if_neg hdone] at hl
        exact ih (step + 1) st2 hst2 l hl

theorem normBySecond_untilDT (s : DateTime) (n : RecurrenceRule) :
    (normBySecond s n).untilDT = n.untilDT := by
  unfold normBySecond; split <;> rfl

theorem normByMinute_untilDT (s : DateTime) (n : RecurrenceRule) :
    (normByMinute s n).untilDT = n.untilDT := by
  unfold normByMinute; split <;> rfl

theorem normByHour_untilDT (s : DateTime) (n : RecurrenceRule) :
    (normByHour s n).untilDT = n.untilDT := by
  unfold normByHour; split <;> rfl

theorem normWeekly_untilDT (s : DateTime) (n : RecurrenceRule) :
    (normWeekly s n).untilDT = n.untilDT := by
  unfold normWeekly; split <;> rfl

theorem normMonthly_untilDT (s : DateTime) (n : RecurrenceRule) :
    (normMonthly s n).untilDT = n.untilDT := by
  unfold normMonthly; split <;> rfl

theorem normYearly_untilDT (s : DateTime) (n : RecurrenceRule) :
    (normYearly s n).untilDT = n.untilDT := by
  unfold normYearly
  split
  · dsimp only
    split <;> split <;> split <;> rfl
  · rfl

theorem normalizeRule_untilDT (r : RecurrenceRule) (s : DateTime) :
    (normalizeRule r s).untilDT = r.untilDT := by
  unfold normalizeRule
  rw [normYearly_untilDT, normMonthly_untilDT, normWeekly_untilDT,
    normByHour_untilDT, normByMinute_untilDT, normBySecond_untilDT]

theorem expandRule_until_bound (anchor : String) (rule : RecurrenceRule)
    (fromL toL : String) (includeAnchor : Bool) (fuel : Nat) (U : String)
    (l : List String)
    (hU : rule.untilDT = some U)
    (hanchor : strCmp anchor U ≠ .gt)
    (hres : expandRule anchor rule fromL toL includeAnchor fuel = some (.ok l)) :
    ∀ k ∈ l, strCmp k U ≠ .gt := by
  unfold expandRule at hres
  split at hres
  · simp at hres
  · cases hp : parseLocalDateTime anchor with
    | none =>
      rw [hp] at hres
      simp at hres
    | some start =>
      rw [hp] at hres
      dsimp only at hres
      have hUne : U ≠ "" := by
        intro h0
        subst h0
        exact parse_ne_empty hp (strCmp_le_empty hanchor)
      have hctxU : (normalizeRule rule start).untilDT = some U := by
        rw [normalizeRule_untilDT, hU]
      cases includeAnchor with
      | false =>
        rw [if_neg (by simp)] at hres
        cases hloop : ruleLoop
            ⟨anchor, start, normalizeRule rule start,
              (normalizeRule rule start).interval.getD 1,
              (normalizeRule rule start).untilDT, (normalizeRule rule start).count,
              (normalizeRule rule start).bySetPosition.getD [],
              (normalizeRule rule start).skip.getD "omit",
              (normalizeRule rule start).firstDayOfWeek.getD .mo,
              fromL, toL, false⟩ fuel 0
            ⟨[], 0, if (normalizeRule rule start).skip.getD "omit" = "omit" then none
              else some []⟩ with
        | none =>
          rw [hloop] at hres
          simp at hres
        | some l2 =>
          rw [hloop] at hres
          simp at hres
          subst hres
          exact ruleLoop_until hctxU hUne fuel 0 _ (by intro k hk; simp at hk) l2 hloop
      | true =>
        rw [if_pos (by simp)] at hres
        set st1 : RuleState :=
          ⟨if isInRange anchor fromL toL then [anchor] else [], 1,
            seenAdd (if (normalizeRule rule start).skip.getD "omit" = "omit" then none
              else some []) anchor⟩ with hst1
        have hinit : ∀ k ∈ st1.results, strCmp k U ≠ .gt := by
          rw [hst1]
          dsimp only
          split
          · intro k hk
            rw [List.mem_singleton.mp hk]
            exact hanchor
          · intro k hk
            simp at hk
        split at hres
        · simp at hres
          subst hres
          exact hinit
        · cases hloop : ruleLoop
              ⟨anchor, start, normalizeRule rule start,
                (normalizeRule rule start).interval.getD 1,
                (normalizeRule rule start).untilDT, (normalizeRule rule start).count,
                (normalizeRule rule start).bySetPosition.getD [],
                (normalizeRule rule start).skip.getD "omit",
                (normalizeRule rule start).firstDayOfWeek.getD .mo,
                fromL, toL, true⟩ fuel 0 st1 with
          | none =>
            rw [hloop] at hres
            simp at hres
          | some l2 =>
            rw [hloop] at hres
            simp at hres
            subst hres
            exact ruleLoop_until hctxU hUne fuel 0 st1 hinit l2 hloop

/-- The (truthy) sort key of an occurrence, as consumed by the merger's
comparator and by the paginator: an empty-string `recurrenceId`/`start` is
falsy in the source and therefore acts as an absent key. -/
def sortKey (v : CalObj) : Option String :=
  if truthyStr (occurrenceKey v) then occurrenceKey v else none

theorem entKeyT_eq_sortKey {e : OccEnt} (h : e.key = occurrenceKey e.value) :
    entKeyT e = sortKey e.value := by
  unfold entKeyT sortKey
  rw [h]

theorem entsOf_key : ∀ (l : List CalObj) (idx : Int) (e : OccEnt),
    e ∈ entsOf l idx → e.key = occurrenceKey e.value := by
  intro l
  induction l with
  | nil => intro idx e he; simp [entsOf] at he
  | cons o rest ih =>
    intro idx e he
    simp only [entsOf, List.mem_cons] at he
    rcases he with he | he
    · rw [he]
    · exact ih (idx + 1) e he

theorem collectEnts_key (fromL toL : String) (fuel : Nat) :
    ∀ (items : List CalObj) (idx : Int) (acc : List OccEnt),
      (∀ e ∈ acc, e.key = occurrenceKey e.value) →
      ∀ ents, collectEnts fromL toL fuel items idx acc = some (.ok ents) →
      ∀ e ∈ ents, e.key = occurrenceKey e.value := by
  intro items
  induction items with
  | nil =>
    intro idx acc hacc ents hents
    simp [collectEnts] at hents
    rw [← hents]
    exact hacc
  | cons item rest ih =>
    intro idx acc hacc ents hents
    rw [collectEnts] at hents
    set expanded : Option (Except ExpErr (List CalObj)) :=
      match item.core.type with
      | .event => expandEvent item fromL toL fuel
      | .task => expandTask item fromL toL fuel
      | .group => some (.ok [item]) with hexp
    cases hcase : expanded with
    | none => rw [hcase] at hents; simp at hents
    | some r =>
      cases r with
      | error e => rw [hcase] at hents; simp at hents
      | ok occs =>
        rw [hcase] at hents
        dsimp only at hents
        refine ih (idx + occs.length) (acc ++ entsOf occs idx) ?_ ents hents
        intro e he
        rcases List.mem_append.mp he with h1 | h2
        · exact hacc e h1
        · exact entsOf_key occs idx e h2

theorem occCmp_some_some {a b : OccEnt} {ka kb : String}
    (ha : entKeyT a = some ka) (hb : entKeyT b = some kb) :
    occCmp a b = (match strCmp ka kb with
      | .lt => (-1 : Int)
      | .eq => 0
      | .gt => 1) := by
  unfold occCmp
  rw [ha, hb]

theorem occCmp_some_none {a b : OccEnt} {ka : String}
    (ha : entKeyT a = some ka) (hb : entKeyT b = none) :
    occCmp a b = -1 := by
  unfold occCmp
  rw [ha, hb]

theorem occCmp_none_some {a b : OccEnt} {kb : String}
    (ha : entKeyT a = none) (hb : entKeyT b = some kb) :
    occCmp a b = 1 := by
  unfold occCmp
  rw [ha, hb]

theorem occCmp_none_none {a b : OccEnt}
    (ha : entKeyT a = none) (hb : entKeyT b = none) :
    occCmp a b = a.index - b.index := by
  unfold occCmp
  rw [ha, hb]

theorem occLE_total (a b : OccEnt) : occLE a b ∨ occLE b a := by
  unfold occLE
  cases ha : entKeyT a with
  | none =>
    cases hb : entKeyT b with
    | none =>
      rw [occCmp_none_none ha hb, occCmp_none_none hb ha]
      omega
      
    | some kb =>
      right
      rw [occCmp_some_none hb ha]
      omega
  | some ka =>
    cases hb : entKeyT b with
    | none =>
      left
      rw [occCmp_some_none ha hb]
      omega
    | some kb =>
      rcases hc : strCmp ka kb with h | h | h
      · left; rw [occCmp_some_some ha hb, hc]; decide
      · left; rw [occCmp_some_some ha hb, hc]
      · right
        rw [strCmp_gt_iff_lt] at hc
        rw [occCmp_some_some hb ha, hc]
        decide

theorem occLE_trans (a b c : OccEnt) (hab : occLE a b) (hbc : occLE b c) :
    occLE a c := by
  unfold occLE at hab hbc ⊢
  cases ha : entKeyT a with
  | none =>
    cases hb : entKeyT b with
    | some kb =>
      rw [occCmp_none_some ha hb] at hab
      omega
    | none =>
      cases hc : entKeyT c with
      | some kc =>
        rw [occCmp_none_some hb hc] at hbc
        omega
      | none =>
        rw [occCmp_none_none ha hb] at hab
        rw [occCmp_none_none hb hc] at hbc
        rw [occCmp_none_none ha hc]
        omega
  | some ka =>
    cases hc : entKeyT c with
    | none =>
      rw [occCmp_some_none ha hc]
      omega
    | some kc =>
      cases hb : entKeyT b with
      | none =>
        rw [occCmp_none_some hb hc] at hbc
        omega
      | some kb =>
        rw [occCmp_some_some ha hb] at hab
        rw [occCmp_some_some hb hc] at hbc
        rw [occCmp_some_some ha hc]
        have h1 : strCmp ka kb ≠ .gt := by
          intro hgt
          rw [hgt] at hab
          exact absurd hab (by decide)
        have h2 : strCmp kb kc ≠ .gt := by
          intro hgt
          rw [hgt] at hbc
          exact absurd hbc (by decide)
        have h3 := strCmp_le_trans h1 h2
        rcases hcc : strCmp ka kc with h | h | h
        · decide
        · decide
        · exact absurd hcc h3

instance : IsTotal OccEnt occLE := ⟨occLE_total⟩
instance : IsTrans OccEnt occLE := ⟨occLE_trans⟩

theorem expandRecurrence_sorted (items : List CalObj) (fromL toL : String)
    (fuel : Nat) (out : List CalObj)
    (h : expandRecurrence items fromL toL fuel = some (.ok out)) :
    List.Chain' (fun a b => ∀ ka kb, sortKey a = some ka → sortKey b = some kb →
      strCmp ka kb ≠ .gt) out := by
  unfold expandRecurrence at h
  cases hc : collectEnts fromL toL fuel items 0 [] with
  | none => rw [hc] at h; simp at h
  | some r =>
    cases r with
    | error e => rw [hc] at h; simp at h
    | ok ents =>
      rw [hc] at h
      simp only [Option.some.injEq, Except.ok.injEq] at h
      subst h
      have hkeys : ∀ e ∈ ents, e.key = occurrenceKey e.value :=
        collectEnts_key fromL toL fuel items 0 [] (by intro e he; simp at he) ents hc
      have hkeys2 : ∀ e ∈ List.insertionSort occLE ents, e.key = occurrenceKey e.value := by
        intro e he
        exact hkeys e ((List.mem_insertionSort occLE).mp he)
      have hsorted : List.Pairwise occLE (List.insertionSort occLE ents) :=
        List.sorted_insertionSort occLE ents
      rw [List.chain'_map]
      apply List.Pairwise.chain'
      apply List.Pairwise.imp_of_mem ?_ hsorted
      intro e f he hf hocc
      intro ka kb hka hkb
      have hae : entKeyT e = some ka := by
        rw [entKeyT_eq_sortKey (hkeys2 e he)]
        exact hka
      have hbf : entKeyT f = some kb := by
        rw [entKeyT_eq_sortKey (hkeys2 f hf)]
        exact hkb
      intro hgt
      have := hocc
      unfold occLE at this
      rw [occCmp_some_some hae hbf, hgt] at this
      exact absurd this (by decide)

/-- Spec-side predicate (from the claim's words, for the refinement
comparison): does an occurrence survive the cursor filter?  Mirrors the
two `continue` guards of the source loop. -/
def pageKeeps (cursor : Option String) (occ : CalObj) : Bool :=
  let key := occurrenceKey occ
  if truthyStr cursor && truthyStr key
      && decide (strCmp (key.getD "") (cursor.getD "") ≠ .gt) then false
  else if truthyStr cursor && !truthyStr key then false
  else true

/-- Spec-side function (from the claim's words): the last truthy key of a
page, else the fallback. -/
def lastKey : List CalObj → Option String → Option String
  | [], nc => nc
  | occ :: rest, nc =>
    lastKey rest (if truthyStr (occurrenceKey occ) then occurrenceKey occ else nc)

theorem pagedLoop_spec (cursor : Option String) (limit : Int) :
    ∀ (occs : List CalObj) (acc : List CalObj) (nc : Option String),
      (acc.length : Int) < limit →
      pagedLoop cursor limit occs acc nc =
        ⟨acc ++ (occs.filter (pageKeeps cursor)).take (limit - acc.length).toNat,
          lastKey ((occs.filter (pageKeeps cursor)).take (limit - acc.length).toNat) nc⟩ := by
  intro occs
  induction occs with
  | nil =>
    intro acc nc hlt
    simp [pagedLoop, lastKey]
  | cons occ rest ih =>
    intro acc nc hlt
    rw [pagedLoop]
    by_cases h1 : (truthyStr cursor && truthyStr (occurrenceKey occ)
        && decide (strCmp ((occurrenceKey occ).getD "") (cursor.getD "") ≠ .gt)) = true
    · have hkeep : pageKeeps cursor occ = false := by
        unfold pageKeeps
        rw [if_pos h1]
      rw [if_pos h1, List.filter_cons, hkeep]
      simp only [Bool.false_eq_true, if_false]
      exact ih acc nc hlt
    · by_cases h2 : (truthyStr cursor && !truthyStr (occurrenceKey occ)) = true
      · have hkeep : pageKeeps cursor occ = false := by
          unfold pageKeeps
          rw [if_neg h1, if_pos h2]
        rw [if_neg h1, if_pos h2, List.filter_cons, hkeep]
        simp only [Bool.false_eq_true, if_false]
        exact ih acc nc hlt
      · have hkeep : pageKeeps cursor occ = true := by
          unfold pageKeeps
          rw [if_neg h1, if_neg h2]
        rw [if_neg h1, if_neg h2, List.filter_cons, hkeep]
        simp only [if_true]
        have hn1 : (limit - (acc.length : Int)).toNat
            = (limit - ((acc ++ [occ]).length : Int)).toNat + 1 := by
          simp only [List.length_append, List.length_singleton]
          omega
        rw [hn1, List.take_succ_cons]
        by_cases h3 : ((acc ++ [occ]).length : Int) ≥ limit
        · rw [if_pos h3]
          have hz : (limit - ((acc ++ [occ]).length : Int)).toNat = 0 := by
            simp only [List.length_append, List.length_singleton] at h3 ⊢
            omega
          rw [hz, List.take_zero]
          rw [show acc ++ occ :: ([] : List CalObj) = acc ++ [occ] from rfl]
          rw [show lastKey (occ :: []) nc
            = (if truthyStr (occurrenceKey occ) then occurrenceKey occ else nc) from rfl]
        · rw [if_neg h3]
          have hlt2 : (((acc ++ [occ]).length : Int)) < limit := by omega
          rw [ih (acc ++ [occ]) _ hlt2]
          rw [show lastKey (occ :: ((rest.filter (pageKeeps cursor)).take
              (limit - ((acc ++ [occ]).length : Int)).toNat)) nc
            = lastKey ((rest.filter (pageKeeps cursor)).take
              (limit - ((acc ++ [occ]).length : Int)).toNat)
              (if truthyStr (occurrenceKey occ) then occurrenceKey occ else nc) from rfl]
          simp

theorem expandRecurrencePaged_spec (items : List CalObj) (fromL toL : String)
    (limit : Int) (cursor : Option String) (fuel : Nat) (page : RecurrencePage)
    (hlim : 1 ≤ limit)
    (h : expandRecurrencePaged items fromL toL limit cursor fuel = some (.ok page)) :
    ∃ occs, expandRecurrence items fromL toL fuel = some (.ok occs) ∧
      page.items = (occs.filter (pageKeeps cursor)).take limit.toNat ∧
      page.nextCursor = lastKey page.items none := by
  unfold expandRecurrencePaged at h
  cases he : expandRecurrence items fromL toL fuel with
  | none => rw [he] at h; simp at h
  | some r =>
    cases r with
    | error e => rw [he] at h; simp at h
    | ok occs =>
      rw [he] at h
      simp only [Option.some.injEq, Except.ok.injEq] at h
      refine ⟨occs, rfl, ?_⟩
      rw [← h]
      rw [pagedLoop_spec cursor limit occs [] none (by simpa using hlim)]
      simp

theorem mem_addOcc {x y : String} {l : List String} (h : x ∈ addOcc l y) :
    x ∈ l ∨ x = y := by
  unfold addOcc at h
  split at h
  · exact Or.inl h
  · rcases List.mem_append.mp h with h1 | h2
    · exact Or.inl h1
    · exact Or.inr (List.mem_singleton.mp h2)

theorem mem_addOccs {x : String} : ∀ {xs l : List String},
    x ∈ addOccs l xs → x ∈ l ∨ x ∈ xs := by
  intro xs
  induction xs with
  | nil => intro l h; exact Or.inl h
  | cons y ys ih =>
    intro l h
    rcases ih h with h1 | h2
    · rcases mem_addOcc h1 with h3 | h4
      · exact Or.inl h3
      · exact Or.inr (by rw [h4]; exact List.mem_cons_self y ys)
    · exact Or.inr (List.mem_cons_of_mem y h2)

theorem expandObject_identical_exclusion_empty (base : CalObj)
    (fromL toL anchor : String) (r : RecurrenceRule) (fuel : Nat)
    (li le : List String) (out : List CalObj)
    (hincl : expandRule anchor r fromL toL true fuel = some (.ok li))
    (hexcl : expandRule anchor r fromL toL false fuel = some (.ok le))
    (hsub : ∀ k ∈ li, k ∈ le)
    (hout : expandObject base fromL toL anchor (some [r]) (some [r]) none fuel
      = some (.ok out)) :
    out = [] := by
  unfold expandObject at hout
  rw [if_neg (by simp [noneOrEmpty])] at hout
  have hset : expandRuleSet anchor fromL toL fuel [r] [] = some (.ok (addOccs [] li)) := by
    unfold expandRuleSet
    rw [hincl]
    rfl
  rw [show (some [r] : Option (List RecurrenceRule)).getD [] = [r] from rfl] at hout
  rw [hset] at hout
  dsimp only at hout
  have hdel : expandRuleDel anchor fromL toL fuel [r] (addOccs [] li)
      = some (.ok (delOccs (addOccs [] li) le)) := by
    unfold expandRuleDel
    rw [hexcl]
    rfl
  rw [hdel] at hout
  dsimp only at hout
  have hempty : delOccs (addOccs [] li) le = [] := by
    unfold delOccs
    rw [List.filter_eq_nil_iff]
    intro a ha
    rcases mem_addOccs ha with h1 | h2
    · simp at h1
    · simp [hsub a h2]
  rw [hempty] at hout
  simp only [overrideKeys, Option.getD_none, List.map_nil, List.foldl_nil] at hout
  rw [show sortStrings [] = [] from rfl] at hout
  simp at hout
  exact hout

theorem mem_addOcc_self (l : List String) (x : String) : x ∈ addOcc l x := by
  unfold addOcc
  split
  · assumption
  · exact List.mem_append.mpr (Or.inr (List.mem_singleton.mpr rfl))

theorem mem_addOcc_of_mem {x : String} {l : List String} (y : String) (h : x ∈ l) :
    x ∈ addOcc l y := by
  unfold addOcc
  split
  · exact h
  · exact List.mem_append.mpr (Or.inl h)

theorem mem_overrideFold_of_mem (fromL toL : String) {k : String} :
    ∀ (keys : List String) (acc : List String), k ∈ acc →
      k ∈ keys.foldl (fun acc key =>
        if isInRange key fromL toL then addOcc acc key else acc) acc := by
  intro keys
  induction keys with
  | nil => intro acc h; exact h
  | cons y ys ih =>
    intro acc h
    rw [List.foldl_cons]
    split
    · exact ih _ (mem_addOcc_of_mem y h)
    · exact ih _ h

theorem mem_overrideFold (fromL toL : String) {k : String} :
    ∀ (keys : List String) (acc : List String), k ∈ keys →
      isInRange k fromL toL = true →
      k ∈ keys.foldl (fun acc key =>
        if isInRange key fromL toL then addOcc acc key else acc) acc := by
  intro keys
  induction keys with
  | nil => intro acc h; simp at h
  | cons y ys ih =>
    intro acc hmem hrange
    rw [List.foldl_cons]
    rcases List.mem_cons.mp hmem with h1 | h2
    · subst h1
      rw [if_pos hrange]
      exact mem_overrideFold_of_mem fromL toL ys _ (mem_addOcc_self acc k)
    · split
      · exact ih _ h2 hrange
      · exact ih _ h2 hrange

theorem lookup_mem_keys {k : String} {p : PatchObject} :
    ∀ {ents : List (String × PatchObject)},
      List.lookup k ents = some p → k ∈ ents.map Prod.fst := by
  intro ents
  induction ents with
  | nil => intro h; simp [List.lookup] at h
  | cons e rest ih =>
    intro h
    rw [List.lookup] at h
    by_cases heq : (k == e.1) = true
    · simp only [List.map_cons, List.mem_cons]
      left
      exact eq_of_beq heq
    · simp only [List.map_cons, List.mem_cons]
      right
      apply ih
      rw [Bool.not_eq_true] at heq
      rw [heq] at h
      exact h

theorem buildInstance_recurrenceId {base : CalObj} {k : String}
    {patch : Option PatchObject} {inst : CalObj}
    (h : buildInstance base k patch = some inst) :
    inst.core.recurrenceId = some k := by
  unfold buildInstance at h
  dsimp only at h
  split at h
  · exact absurd h (by simp)
  · injection h with h2
    rw [← h2]

theorem expandObject_override_materialized (base : CalObj)
    (fromL toL anchor : String)
    (rules excludedRules : Option (List RecurrenceRule))
    (overrides : List (String × PatchObject)) (fuel : Nat)
    (k : String) (p : PatchObject) (out : List CalObj)
    (hrules : noneOrEmpty rules = false)
    (hfind : List.lookup k overrides = some p)
    (hrange : isInRange k fromL toL = true)
    (hexc : isExcludedInstance (p.apply base.core) = false)
    (hout : expandObject base fromL toL anchor rules excludedRules
      (some overrides) fuel = some (.ok out)) :
    ∃ inst ∈ out, inst.core.recurrenceId = some k := by
  unfold expandObject at hout
  rw [if_neg (by simp [hrules])] at hout
  cases hset : expandRuleSet anchor fromL toL fuel (rules.getD []) [] with
  | none => rw [hset] at hout; simp at hout
  | some r1 =>
    cases r1 with
    | error e => rw [hset] at hout; simp at hout
    | ok occ1 =>
      rw [hset] at hout
      dsimp only at hout
      cases hdel : expandRuleDel anchor fromL toL fuel (excludedRules.getD []) occ1 with
      | none => rw [hdel] at hout; simp at hout
      | some r2 =>
        cases r2 with
        | error e => rw [hdel] at hout; simp at hout
        | ok occ2 =>
          rw [hdel] at hout
          dsimp only at hout
          simp only [Option.some.injEq, Except.ok.injEq] at hout
          have hkeys : k ∈ overrideKeys (some overrides) :=
            lookup_mem_keys hfind
          have hmem3 : k ∈ (overrideKeys (some overrides)).foldl (fun acc key =>
              if isInRange key fromL toL then addOcc acc key else acc) occ2 :=
            mem_overrideFold fromL toL _ occ2 hkeys hrange
          have hmemsorted : k ∈ sortStrings ((overrideKeys (some overrides)).foldl
              (fun acc key => if isInRange key fromL toL then addOcc acc key else acc)
              occ2) := by
            unfold sortStrings
            exact (List.mem_insertionSort _).mpr hmem3
          have hbuild : ∃ inst, buildInstance base k (lookupOverride (some overrides) k)
              = some inst := by
            rw [show lookupOverride (some overrides) k = some p from hfind]
            unfold buildInstance
            rw [if_neg (by simp [hexc])]
            exact ⟨_, rfl⟩
          obtain ⟨inst, hinst⟩ := hbuild
          refine ⟨inst, ?_, buildInstance_recurrenceId hinst⟩
          rw [← hout]
          exact List.mem_filterMap.mpr ⟨k, hmemsorted, hinst⟩

theorem expandRule_error_classify {anchor : String} {rule : RecurrenceRule}
    {fromL toL : String} {incl : Bool} {fuel : Nat} {e : ExpErr}
    (hparse : (parseLocalDateTime anchor).isSome = true)
    (h : expandRule anchor rule fromL toL incl fuel = some (.error e)) :
    ∃ s, e = .unsupportedRscale s := by
  unfold expandRule at h
  split at h
  · simp only [Option.some.injEq, Except.error.injEq] at h
    exact ⟨_, h.symm⟩
  · cases hp : parseLocalDateTime anchor with
    | none => rw [hp] at hparse; simp at hparse
    | some start =>
      rw [hp] at h
      dsimp only at h
      cases incl with
      | true =>
        rw [if_pos (by simp)] at h
        split at h
        · simp at h
        · cases hloop : ruleLoop _ fuel 0 _ with
          | none => rw [hloop] at h; simp at h
          | some l => rw [hloop] at h; simp at h
      | false =>
        rw [if_neg (by simp)] at h
        cases hloop : ruleLoop _ fuel 0 _ with
        | none => rw [hloop] at h; simp at h
        | some l => rw [hloop] at h; simp at h

theorem expandRule_bad {anchor : String} {rule : RecurrenceRule}
    {fromL toL : String} {incl : Bool} {fuel : Nat}
    (hbad1 : truthyStr rule.rscale = true)
    (hbad2 : rule.rscale ≠ some "gregorian") :
    expandRule anchor rule fromL toL incl fuel
      = some (.error (.unsupportedRscale (rule.rscale.getD ""))) := by
  unfold expandRule
  rw [if_pos (by simp [hbad1, hbad2])]

theorem expandRuleSet_error_classify {anchor fromL toL : String} {fuel : Nat}
    (hparse : (parseLocalDateTime anchor).isSome = true) :
    ∀ (rl : List RecurrenceRule) (acc : List String) (e : ExpErr),
      expandRuleSet anchor fromL toL fuel rl acc = some (.error e) →
      ∃ s, e = .unsupportedRscale s := by
  intro rl
  induction rl with
  | nil => intro acc e h; simp [expandRuleSet] at h
  | cons r rest ih =>
    intro acc e h
    rw [expandRuleSet] at h
    cases hr : expandRule anchor r fromL toL true fuel with
    | none => rw [hr] at h; simp at h
    | some r1 =>
      cases r1 with
      | error e2 =>
        rw [hr] at h
        simp only [Option.some.injEq, Except.error.injEq] at h
        subst h
        exact expandRule_error_classify hparse hr
      | ok l =>
        rw [hr] at h
        exact ih _ e h

theorem expandRuleDel_error_classify {anchor fromL toL : String} {fuel : Nat}
    (hparse : (parseLocalDateTime anchor).isSome = true) :
    ∀ (rl : List RecurrenceRule) (acc : List String) (e : ExpErr),
      expandRuleDel anchor fromL toL fuel rl acc = some (.error e) →
      ∃ s, e = .unsupportedRscale s := by
  intro rl
  induction rl with
  | nil => intro acc e h; simp [expandRuleDel] at h
  | cons r rest ih =>
    intro acc e h
    rw [expandRuleDel] at h
    cases hr : expandRule anchor r fromL toL false fuel with
    | none => rw [hr] at h; simp at h
    | some r1 =>
      cases r1 with
      | error e2 =>
        rw [hr] at h
        simp only [Option.some.injEq, Except.error.injEq] at h
        subst h
        exact expandRule_error_classify hparse hr
      | ok l =>
        rw [hr] at h
        exact ih _ e h

theorem expandRuleSet_bad_not_ok {anchor fromL toL : String} {fuel : Nat}
    {r : RecurrenceRule}
    (hbad1 : truthyStr r.rscale = true) (hbad2 : r.rscale ≠ some "gregorian") :
    ∀ (rl : List RecurrenceRule) (acc : List String) (l : List String),
      r ∈ rl → expandRuleSet anchor fromL toL fuel rl acc ≠ some (.ok l) := by
  intro rl
  induction rl with
  | nil => intro acc l hmem; simp at hmem
  | cons x rest ih =>
    intro acc l hmem h
    rw [expandRuleSet] at h
    rcases List.mem_cons.mp hmem with h1 | h2
    · subst h1
      rw [expandRule_bad hbad1 hbad2] at h
      simp at h
    · cases hx : expandRule anchor x fromL toL true fuel with
      | none => rw [hx] at h; simp at h
      | some r1 =>
        cases r1 with
        | error e => rw [hx] at h; simp at h
        | ok l2 =>
          rw [hx] at h
          exact ih _ l h2 h

theorem expandRuleDel_bad_not_ok {anchor fromL toL : String} {fuel : Nat}
    {r : RecurrenceRule}
    (hbad1 : truthyStr r.rscale = true) (hbad2 : r.rscale ≠ some "gregorian") :
    ∀ (rl : List RecurrenceRule) (acc : List String) (l : List String),
      r ∈ rl → expandRuleDel anchor fromL toL fuel rl acc ≠ some (.ok l) := by
  intro rl
  induction rl with
  | nil => intro acc l hmem; simp at hmem
  | cons x rest ih =>
    intro acc l hmem h
    rw [expandRuleDel] at h
    rcases List.mem_cons.mp hmem with h1 | h2
    · subst h1
      rw [expandRule_bad hbad1 hbad2] at h
      simp at h
    · cases hx : expandRule anchor x fromL toL false fuel with
      | none => rw [hx] at h; simp at h
      | some r1 =>
        cases r1 with
        | error e => rw [hx] at h; simp at h
        | ok l2 =>
          rw [hx] at h
          exact ih _ l h2 h

theorem expandObject_bad_rscale (base : CalObj) (fromL toL anchor : String)
    (rules excludedRules : Option (List RecurrenceRule))
    (overrides : Option (List (String × PatchObject))) (fuel : Nat)
    (r : RecurrenceRule) (res : Except ExpErr (List CalObj))
    (hparse : (parseLocalDateTime anchor).isSome = true)
    (hrules : noneOrEmpty rules = false)
    (hr : r ∈ rules.getD [] ∨ r ∈ excludedRules.getD [])
    (hbad1 : truthyStr r.rscale = true)
    (hbad2 : r.rscale ≠ some "gregorian")
    (hout : expandObject base fromL toL anchor rules excludedRules overrides fuel
      = some res) :
    ∃ s, res = .error (.unsupportedRscale s) := by
  unfold expandObject at hout
  rw [if_neg (by simp [hrules])] at hout
  cases hset : expandRuleSet anchor fromL toL fuel (rules.getD []) [] with
  | none => rw [hset] at hout; simp at hout
  | some r1 =>
    cases r1 with
    | error e =>
      rw [hset] at hout
      simp only [Option.some.injEq] at hout
      subst hout
      obtain ⟨s, hs⟩ := expandRuleSet_error_classify hparse _ _ e hset
      exact ⟨s, by rw [hs]⟩
    | ok occ1 =>
      rw [hset] at hout
      dsimp only at hout
      cases hdel : expandRuleDel anchor fromL toL fuel (excludedRules.getD []) occ1 with
      | none => rw [hdel] at hout; simp at hout
      | some r2 =>
        cases r2 with
        | error e =>
          rw [hdel] at hout
          simp only [Option.some.injEq] at hout
          subst hout
          obtain ⟨s, hs⟩ := expandRuleDel_error_classify hparse _ _ e hdel
          exact ⟨s, by rw [hs]⟩
        | ok occ2 =>
          rcases hr with hri | hre
          · exact absurd hset (expandRuleSet_bad_not_ok hbad1 hbad2 _ _ occ1 hri)
          · exact absurd hdel (expandRuleDel_bad_not_ok hbad1 hbad2 _ _ occ2 hre)

/-- The failing input of the finiteness claim: a validation-legal daily
rule with `interval = 0` (the validator only requires a non-negative
integer). -/
def c10rule : RecurrenceRule := { frequency := .daily, interval := some 0 }

/-- The rule context `expandRule` builds for `c10rule` anchored at
2026-02-01T09:00:00 over the day range 2026-02-01 .. 2026-02-02. -/
def c10ctx : RuleCtx :=
  ⟨"2026-02-01T09:00:00", ⟨2026, 2, 1, 9, 0, 0⟩,
    normalizeRule c10rule ⟨2026, 2, 1, 9, 0, 0⟩, 0, none, none, [], "omit", .mo,
    "2026-02-01T00:00:00", "2026-02-02T00:00:00", true⟩

/-- The loop state after the include-anchor prologue for `c10ctx`. -/
def c10st : RuleState := ⟨["2026-02-01T09:00:00"], 1, none⟩

theorem c10_expandRule_eq (fuel : Nat) :
    expandRule "2026-02-01T09:00:00" c10rule
      "2026-02-01T00:00:00" "2026-02-02T00:00:00" true fuel
      = (ruleLoop c10ctx fuel 0 c10st).map Except.ok := rfl

theorem c10_step (fuel : Nat) (step : Int) (st : RuleState) :
    ruleLoop c10ctx (fuel + 1) step st = ruleLoop c10ctx fuel (step + 1) st := by
  rw [ruleLoop]
  rw [show c10ctx.interval * step = 0 from by
    rw [show c10ctx.interval = (0 : Int) from rfl]
    exact zero_mul step]
  rfl

theorem c10_loop (fuel : Nat) : ∀ (step : Int) (st : RuleState),
    ruleLoop c10ctx fuel step st = none := by
  induction fuel with
  | zero => intro step st; rfl
  | succ f ih =>
    intro step st
    rw [c10_step]
    exact ih (step + 1) st

/- Concrete fixtures for witnesses and counterexamples. -/

/-- Event anchored 2026-02-01T09:00:00, no rules. -/
def wEv1 : CalObj := { core := { type := .event, start := some "2026-02-01T09:00:00" } }

/-- Event anchored 2026-02-03T09:00:00, no rules. -/
def wEv2 : CalObj := { core := { type := .event, start := some "2026-02-03T09:00:00" } }

/-- Weekly Tuesday rule (the anchor below is a Monday). -/
def c4rule : RecurrenceRule := { frequency := .weekly, byDay := some [⟨.tu, none⟩] }

/-- Monday-anchored event carrying `c4rule` both as inclusion and as the
identical exclusion rule. -/
def c4obj : CalObj :=
  { core := { type := .event, start := some "2026-02-02T09:00:00" },
    recurrenceRules := some [c4rule],
    excludedRecurrenceRules := some [c4rule] }

/-- Weekly Wednesday rule matching its own anchor (the repo's exclusion
test). -/
def c4wRule : RecurrenceRule := { frequency := .weekly, byDay := some [⟨.we, none⟩] }

/-- Wednesday-anchored event with `c4wRule` included and excluded. -/
def c4wObj : CalObj :=
  { core := { type := .event, start := some "2026-02-04T10:30:00" },
    recurrenceRules := some [c4wRule],
    excludedRecurrenceRules := some [c4wRule] }

/-- Title-overriding patch. -/
def c7patch : PatchObject := { apply := fun c => { c with title := some "Override" } }

/-- Event whose weekly rule is fully cancelled by an identical exclusion
rule but which carries an override on a generated-and-excluded key. -/
def c7obj : CalObj :=
  { core := { type := .event, start := some "2026-02-04T10:30:00" },
    recurrenceRules := some [c4wRule],
    excludedRecurrenceRules := some [c4wRule],
    recurrenceOverrides := some [("2026-02-11T10:30:00", c7patch)] }

/-- The single occurrence `c7obj` materializes. -/
def c7instCore : CalCore :=
  { type := .event, start := some "2026-02-11T10:30:00",
    recurrenceId := some "2026-02-11T10:30:00", recurrenceIdTimeZone := none,
    title := some "Override" }

def c7inst : CalObj := { core := c7instCore }

/-- Daily rule with a non-gregorian rscale. -/
def c9badRule : RecurrenceRule := { frequency := .daily, rscale := some "hebrew" }

/-- Object with an invalid anchor and a gregorian rule before the bad one. -/
def c9obj : CalObj :=
  { core := { type := .event, start := some "garbage" },
    recurrenceRules := some [{ frequency := .daily }, c9badRule] }

/-- Object with a valid anchor and the bad rule second. -/
def c9obj2 : CalObj :=
  { core := { type := .event, start := some "2026-02-01T09:00:00" },
    recurrenceRules := some [{ frequency := .daily, count := some 2 }, c9badRule] }

/-- C1: expanding a list of calendar objects produces a stream ordered by
the occurrence sort key (recurrenceId, else own start/due): whenever two
consecutive emitted occurrences both have (truthy) keys, the first key is
at most the second. -/
theorem claim_C1_expand_merged_sorted (items : List CalObj) (fromL toL : String)
    (fuel : Nat) (out : List CalObj)
    (h : expandRecurrence items fromL toL fuel = some (.ok out)) :
    List.Chain' (fun a b => ∀ ka kb, sortKey a = some ka → sortKey b = some kb →
      strCmp ka kb ≠ .gt) out :=
  expandRecurrence_sorted items fromL toL fuel out h

/-- Witness for C1 at two out-of-order events: the merged stream comes out
key-sorted. -/
theorem claim_C1_witness :
    List.Chain' (fun a b => ∀ ka kb, sortKey a = some ka → sortKey b = some kb →
      strCmp ka kb ≠ .gt) [wEv1, wEv2] :=
  claim_C1_expand_merged_sorted [wEv2, wEv1]
    "2026-02-01T00:00:00" "2026-02-10T00:00:00" 20 [wEv1, wEv2] rfl

/-- Counterexample to C2 as stated: one keyed occurrence, limit 2, no
cursor.  The stream (length 1) is exhausted without filling the page, yet
`nextCursor` is still the last key instead of being absent. -/
theorem claim_C2_counterexample :
    ((expandRecurrence [wEv1] "2026-02-01T00:00:00" "2026-02-10T00:00:00" 20).map
      (fun r => r.map List.length) = some (.ok 1))
    ∧ ((expandRecurrencePaged [wEv1] "2026-02-01T00:00:00" "2026-02-10T00:00:00"
        2 none 20).map
      (fun r => r.map (fun p => (p.items.length, p.nextCursor)))
      = some (.ok (1, some "2026-02-01T09:00:00"))) :=
  ⟨rfl, rfl⟩

/-- C2 (amended): for limit at least 1, the returned page is exactly the
first `min(limit, remaining)` occurrences of the merged stream after the
cursor filter, and `nextCursor` is the last truthy key among the returned
occurrences — absent exactly when no returned occurrence has one (in
particular for an empty page), but not reset when the page merely exhausts
the stream. -/
theorem claim_C2_paged_page_and_cursor (items : List CalObj) (fromL toL : String)
    (limit : Int) (cursor : Option String) (fuel : Nat) (page : RecurrencePage)
    (hlim : 1 ≤ limit)
    (h : expandRecurrencePaged items fromL toL limit cursor fuel = some (.ok page)) :
    ∃ occs, expandRecurrence items fromL toL fuel = some (.ok occs) ∧
      page.items = (occs.filter (pageKeeps cursor)).take limit.toNat ∧
      page.nextCursor = lastKey page.items none :=
  expandRecurrencePaged_spec items fromL toL limit cursor fuel page hlim h

/-- Witness for C2 (amended) at one event, limit 2, no cursor. -/
theorem claim_C2_witness :
    ∃ occs, expandRecurrence [wEv1] "2026-02-01T00:00:00" "2026-02-10T00:00:00" 20
        = some (.ok occs) ∧
      (⟨[wEv1], some "2026-02-01T09:00:00"⟩ : RecurrencePage).items
        = (occs.filter (pageKeeps none)).take (2 : Int).toNat ∧
      (⟨[wEv1], some "2026-02-01T09:00:00"⟩ : RecurrencePage).nextCursor
        = lastKey (⟨[wEv1], some "2026-02-01T09:00:00"⟩ : RecurrencePage).items none :=
  claim_C2_paged_page_and_cursor [wEv1] "2026-02-01T00:00:00" "2026-02-10T00:00:00"
    2 none 20 ⟨[wEv1], some "2026-02-01T09:00:00"⟩ (by decide) rfl

/-- Counterexample to C3 as stated: a rule whose `until` precedes its
anchor still emits the anchor (the include-anchor prologue never checks
`until`), so an emitted key exceeds `until`. -/
theorem claim_C3_counterexample :
    expandRule "2026-02-02T09:00:00"
      { frequency := .weekly, untilDT := some "2026-01-01T00:00:00" }
      "2026-02-01T00:00:00" "2026-03-01T00:00:00" true 20
      = some (.ok ["2026-02-02T09:00:00"])
    ∧ strCmp "2026-02-02T09:00:00" "2026-01-01T00:00:00" = .gt := by
  constructor
  · rfl
  · decide

/-- C3 (amended): for a rule with `until = U` whose anchor does not exceed
`U`, no key emitted by `expandRule` (the anchor included) exceeds `U`
under the plain lexicographic comparison; internally the first candidate
exceeding `U` terminates the expansion. -/
theorem claim_C3_until_inclusive_terminal (anchor : String) (rule : RecurrenceRule)
    (fromL toL : String) (includeAnchor : Bool) (fuel : Nat) (U : String)
    (l : List String)
    (hU : rule.untilDT = some U)
    (hanchor : strCmp anchor U ≠ .gt)
    (hres : expandRule anchor rule fromL toL includeAnchor fuel = some (.ok l)) :
    ∀ k ∈ l, strCmp k U ≠ .gt :=
  expandRule_until_bound anchor rule fromL toL includeAnchor fuel U l hU hanchor hres

/-- Witness for C3 (amended): weekly rule with `until` on the second
occurrence; the bound holds at that emitted key. -/
theorem claim_C3_witness :
    strCmp "2026-02-09T09:00:00" "2026-02-09T09:00:00" ≠ Ordering.gt :=
  claim_C3_until_inclusive_terminal "2026-02-02T09:00:00"
    { frequency := .weekly, untilDT := some "2026-02-09T09:00:00" }
    "2026-02-01T00:00:00" "2026-03-01T00:00:00" true 20 "2026-02-09T09:00:00"
    ["2026-02-02T09:00:00", "2026-02-09T09:00:00"]
    rfl (by decide) rfl "2026-02-09T09:00:00" (by decide)

/-- Counterexample to C4 as stated: a weekly-Tuesday rule anchored on a
Monday plus the identical exclusion rule leaves one occurrence — the
anchor, which the inclusion expansion always emits but the exclusion
expansion (whose candidates pass the rule's own BY-filters) never
generates. -/
theorem claim_C4_counterexample :
    (expandObject c4obj "2026-02-01T00:00:00" "2026-02-10T23:59:59"
      "2026-02-02T09:00:00" c4obj.recurrenceRules c4obj.excludedRecurrenceRules
      none 20).map (fun r => r.map (fun out => out.map (fun o => o.core.recurrenceId)))
      = some (.ok [some "2026-02-02T09:00:00"]) :=
  rfl

/-- C4 (amended): a rule together with the identical exclusion rule yields
zero occurrences provided every key the inclusion expansion emits is also
emitted by the exclusion expansion (which holds whenever the rule's
BY-filters generate its own anchor, e.g. the repository's Wednesday
test); otherwise exactly the anchor occurrence can survive. -/
theorem claim_C4_identical_exclusion_empty (base : CalObj)
    (fromL toL anchor : String) (r : RecurrenceRule) (fuel : Nat)
    (li le : List String) (out : List CalObj)
    (hincl : expandRule anchor r fromL toL true fuel = some (.ok li))
    (hexcl : expandRule anchor r fromL toL false fuel = some (.ok le))
    (hsub : ∀ k ∈ li, k ∈ le)
    (hout : expandObject base fromL toL anchor (some [r]) (some [r]) none fuel
      = some (.ok out)) :
    out = [] :=
  expandObject_identical_exclusion_empty base fromL toL anchor r fuel li le out
    hincl hexcl hsub hout

/-- Witness for C4 (amended) at the repository's own exclusion test
object (weekly Wednesday rule anchored on a Wednesday). -/
theorem claim_C4_witness : ([] : List CalObj) = [] :=
  claim_C4_identical_exclusion_empty c4wObj
    "2026-02-01T00:00:00" "2026-02-10T23:59:59" "2026-02-04T10:30:00" c4wRule 20
    ["2026-02-04T10:30:00"] ["2026-02-04T10:30:00"] []
    rfl rfl (by decide) rfl

/-- C5: a monthly byMonthDay=[31] rule anchored 2026-01-31T09:00:00 over
February–March 2026 emits exactly 2026-03-01 and 2026-03-31 (9:00) under
skip=forward, and exactly 2026-02-28 and 2026-03-31 under skip=backward. -/
theorem claim_C5_skip_forward_backward :
    expandRule "2026-01-31T09:00:00"
      { frequency := .monthly, byMonthDay := some [31], skip := some "forward" }
      "2026-02-01T00:00:00" "2026-03-31T23:59:59" true 20
      = some (.ok ["2026-03-01T09:00:00", "2026-03-31T09:00:00"])
    ∧ expandRule "2026-01-31T09:00:00"
      { frequency := .monthly, byMonthDay := some [31], skip := some "backward" }
      "2026-02-01T00:00:00" "2026-03-31T23:59:59" true 20
      = some (.ok ["2026-02-28T09:00:00", "2026-03-31T09:00:00"]) :=
  ⟨rfl, rfl⟩

/-- C6: a weekly rule with count=2 anchored 2026-02-02T09:00:00 on an
Event emits exactly the anchor and the instant one week later: the anchor
counts as the first generated instant of the count budget. -/
theorem claim_C6_count_includes_anchor :
    (expandEvent
      { core := { type := .event, start := some "2026-02-02T09:00:00" },
        recurrenceRules := some [{ frequency := .weekly, count := some 2 }] }
      "2026-02-01T00:00:00" "2026-03-01T00:00:00" 20).map
      (fun r => r.map (fun out => out.map (fun o => o.core.recurrenceId)))
      = some (.ok [some "2026-02-02T09:00:00", some "2026-02-09T09:00:00"]) :=
  rfl

/-- C7: override keys are unioned in after the exclusion-rule subtraction:
an in-range override key whose patch does not mark the instance excluded
is materialized (with `recurrenceId` set to the key) even when the same
key is generated by an exclusion rule. -/
theorem claim_C7_override_survives_exclusion (base : CalObj)
    (fromL toL anchor : String)
    (rules excludedRules : Option (List RecurrenceRule))
    (overrides : List (String × PatchObject)) (fuel : Nat)
    (k : String) (p : PatchObject) (out : List CalObj)
    (hrules : noneOrEmpty rules = false)
    (hfind : List.lookup k overrides = some p)
    (hrange : isInRange k fromL toL = true)
    (hexc : isExcludedInstance (p.apply base.core) = false)
    (hout : expandObject base fromL toL anchor rules excludedRules
      (some overrides) fuel = some (.ok out)) :
    ∃ inst ∈ out, inst.core.recurrenceId = some k :=
  expandObject_override_materialized base fromL toL anchor rules excludedRules
    overrides fuel k p out hrules hfind hrange hexc hout

/-- Witness for C7: a weekly rule cancelled by its identical exclusion
rule still materializes the override key the exclusion also generates. -/
theorem claim_C7_witness :
    ∃ inst ∈ [c7inst], inst.core.recurrenceId = some "2026-02-11T10:30:00" :=
  claim_C7_override_survives_exclusion c7obj
    "2026-02-01T00:00:00" "2026-02-28T23:59:59" "2026-02-04T10:30:00"
    c7obj.recurrenceRules c7obj.excludedRecurrenceRules
    [("2026-02-11T10:30:00", c7patch)] 20
    "2026-02-11T10:30:00" c7patch [c7inst]
    rfl rfl (by decide) rfl rfl

/-- C8: `normalizeRule` is idempotent — normalizing an already-normalized
rule is a field-for-field no-op, for every rule and anchor. -/
theorem claim_C8_normalizeRule_idempotent (r : RecurrenceRule) (s : DateTime) :
    normalizeRule (normalizeRule r s) s = normalizeRule r s :=
  normalizeRule_idem r s

/-- Counterexample to C9 as stated: an object that carries a non-gregorian
rule but whose anchor is malformed raises the malformed-input error, not
the unsupported-feature error, because a gregorian rule earlier in the
list parses the anchor first. -/
theorem claim_C9_counterexample :
    expandEvent c9obj "2026-02-01T00:00:00" "2026-02-10T00:00:00" 20
      = some (.error (.invalidLocalDateTime "garbage"))
    ∧ c9badRule.rscale = some "hebrew" :=
  ⟨rfl, rfl⟩

/-- C9 (amended): for an object with at least one inclusion rule, a
parseable anchor and a non-gregorian rscale on any of its rules
(inclusion or exclusion), every completed expansion fails with the
unsupported-feature error — which is a distinct constructor from the
malformed-input error — and, the error being the entire result, no
occurrence is produced. -/
theorem claim_C9_unsupported_rscale (base : CalObj) (fromL toL anchor : String)
    (rules excludedRules : Option (List RecurrenceRule))
    (overrides : Option (List (String × PatchObject))) (fuel : Nat)
    (r : RecurrenceRule) (res : Except ExpErr (List CalObj))
    (hparse : (parseLocalDateTime anchor).isSome = true)
    (hrules : noneOrEmpty rules = false)
    (hr : r ∈ rules.getD [] ∨ r ∈ excludedRules.getD [])
    (hbad1 : truthyStr r.rscale = true)
    (hbad2 : r.rscale ≠ some "gregorian")
    (hout : expandObject base fromL toL anchor rules excludedRules overrides fuel
      = some res) :
    ∃ s, res = .error (.unsupportedRscale s) :=
  expandObject_bad_rscale base fromL toL anchor rules excludedRules overrides fuel
    r res hparse hrules hr hbad1 hbad2 hout

/-- Witness for C9 (amended): valid anchor, gregorian rule first,
hebrew-rscale rule second. -/
theorem claim_C9_witness :
    ∃ s, (.error (.unsupportedRscale "hebrew") : Except ExpErr (List CalObj))
      = .error (.unsupportedRscale s) :=
  claim_C9_unsupported_rscale c9obj2 "2026-02-01T00:00:00" "2026-02-10T00:00:00"
    "2026-02-01T09:00:00" c9obj2.recurrenceRules none none 20
    c9badRule (.error (.unsupportedRscale "hebrew"))
    (by decide) (by decide) (by constructor; decide) (by decide) (by decide) rfl

/-- C10 (code bug): on the validation-legal input `interval = 0` the
period cursor never advances, so `expandRule` never returns — the fuelled
model yields `none` for every fuel, contradicting the spec's finiteness
guarantee. -/
theorem claim_C10_interval_zero_diverges :
    ∀ fuel : Nat,
      expandRule "2026-02-01T09:00:00" c10rule
        "2026-02-01T00:00:00" "2026-02-02T00:00:00" true fuel = none := by
  intro fuel
  rw [c10_expandRule_eq, c10_loop]
  rfl

end JSCal
